/-
Verification of the BufferManager lab (record codec, disk manager, buffer pool,
eviction policies, tenant-aware extension).

The development shallowly embeds the Python sources:
  - lab/BufferManager/base_data_struct.py   (Order codec)
  - lab/BufferManager/disk_manager.py       (DiskManager)
  - lab/BufferManager/step03_with_buffer_manager.py (BufferManager)
  - lab/BufferManager/step05_bufferLLMemory.py      (UserAwareBufferManager)

Machine integers are modelled as Nat; byte strings as List Nat (each < 256);
wall-clock durations as Rat parameters supplied to each I/O call; fallible
operations return Option.
-/
import Mathlib

namespace BdM

/-! ## Record codec (`Order` in base_data_struct.py)

`struct.pack('IIIIIIII', ...)` packs eight unsigned 32-bit integers in native
(little-endian) byte order; it raises if an argument is not in `[0, 2^32)`.
-/

/-- One little-endian 32-bit field, as written by `struct.pack('I', n)`. -/
def natToLE4 (n : Nat) : List Nat :=
  [n % 256, n / 256 % 256, n / 65536 % 256, n / 16777216 % 256]

/-- Read one little-endian 32-bit field from the first four bytes of a buffer,
as `struct.unpack('I', data[:4])` does. -/
def readLE4 (data : List Nat) : Nat :=
  data.getD 0 0 + 256 * data.getD 1 0 + 65536 * data.getD 2 0
    + 16777216 * data.getD 3 0

/-- `Order.RECORD_SIZE` in base_data_struct.py. -/
def RECORD_SIZE : Nat := 32

/-- The `Order` record of base_data_struct.py.  Integer attributes are Nat;
`price` is the (binary64) float attribute, embedded as its exact rational
value. -/
structure Order where
  order_id : Nat
  customer_id : Nat
  product_id : Nat
  quantity : Nat
  price : Rat
  order_date : Nat
  region : Nat
  deriving DecidableEq, Repr

/-- `Order.to_bytes`, with the cents value passed explicitly.  The source
computes `int(self.price * 100)` in binary64 floating point; `cents` is that
already-evaluated value (its IEEE-754 evaluation is treated at the concrete
inputs where it matters, see `float0_29` below).  `struct.pack('I', v)` raises
unless `0 <= v < 2^32`, hence the Option. -/
def Order.to_bytesWithCents (o : Order) (cents : Nat) : Option (List Nat) :=
  if o.order_id < 2 ^ 32 ∧ o.customer_id < 2 ^ 32 ∧ o.product_id < 2 ^ 32 ∧
     o.quantity < 2 ^ 32 ∧ cents < 2 ^ 32 ∧ o.order_date < 2 ^ 32 ∧
     o.region < 2 ^ 32 then
    some (natToLE4 o.order_id ++ natToLE4 o.customer_id ++ natToLE4 o.product_id
      ++ natToLE4 o.quantity ++ natToLE4 cents ++ natToLE4 o.order_date
      ++ natToLE4 o.region ++ natToLE4 0)
  else
    none

/-- `Order.from_bytes` of base_data_struct.py: raises `ValueError` (here:
`none`) iff the buffer is shorter than `RECORD_SIZE`; otherwise unpacks the
first 32 bytes (`data[:cls.RECORD_SIZE]`) and ignores the rest; the price is
`fields[4] / 100.0`, the eighth field is padding and is ignored. -/
def Order.from_bytes (data : List Nat) : Option Order :=
  if data.length < RECORD_SIZE then
    none
  else
    some
      { order_id := readLE4 data
        customer_id := readLE4 (data.drop 4)
        product_id := readLE4 (data.drop 8)
        quantity := readLE4 (data.drop 12)
        price := mkRat (readLE4 (data.drop 16)) 100
        order_date := readLE4 (data.drop 20)
        region := readLE4 (data.drop 24) }

/-- Exact rational value of the IEEE-754 binary64 number denoted by the Python
literal 0.29 (what an `Order` constructed with `price=0.29` stores). -/
def float0_29 : Rat := mkRat 5224175567749775 18014398509481984

/-- Exact rational value of the binary64 product 0.29 * 100 as evaluated inside
`int(self.price * 100)` in `Order.to_bytes`: Python yields
28.999999999999996, whose exact value is this rational (one ulp below 29). -/
def float0_29_times_100 : Rat := mkRat 8162774324609023 281474976710656

/-- The cents value that `Order.to_bytes` stores for price 0.29:
`int(28.999999999999996)` truncates toward zero, which on this positive value
is the floor. -/
def storedCents0_29 : Int := Rat.floor float0_29_times_100

/-- The order `Order(1, 100, 50, 2, 0.29, 365, 1)`. -/
def orderPrice0_29 : Order :=
  { order_id := 1, customer_id := 100, product_id := 50, quantity := 2
    price := float0_29, order_date := 365, region := 1 }

/-- `DiskPage.PAGE_SIZE` (= `Config.PAGE_SIZE`). -/
def PAGE_SIZE : Nat := 4096

/-- A decoded disk page, identified by its id (see section comment). -/
structure Page where
  page_id : Nat
  deriving DecidableEq, Repr

/-- The `DiskManager` of disk_manager.py: the backing file plus the six I/O
statistics counters set up in `__init__`. -/
structure DiskManager where
  fileSize : Nat
  read_count : Nat
  write_count : Nat
  total_read_time : Nat
  total_write_time : Nat
  bytes_read : Nat
  bytes_written : Nat
  deriving DecidableEq, Repr

/-- A fresh `DiskManager` over a file of `fileSize` bytes (all counters 0). -/
def DiskManager.init (fileSize : Nat) : DiskManager :=
  { fileSize := fileSize, read_count := 0, write_count := 0
    total_read_time := 0, total_write_time := 0
    bytes_read := 0, bytes_written := 0 }

/-- `DiskManager.read_page`: seeks to `page_id * PAGE_SIZE` and reads one
page.  A full page is available iff the file extends past the end of the
requested page; only then are the read counters updated and a page returned.
A short read (page beyond EOF) returns `None` with the counters untouched;
the `except` path for I/O errors likewise returns `None` untouched. -/
def DiskManager.read_page (dm : DiskManager) (page_id : Nat) (elapsed : Nat) :
    DiskManager × Option Page :=
  if (page_id + 1) * PAGE_SIZE ≤ dm.fileSize then
    ({ dm with
        read_count := dm.read_count + 1
        total_read_time := dm.total_read_time + elapsed
        bytes_read := dm.bytes_read + PAGE_SIZE },
      some { page_id := page_id })
  else
    (dm, none)

/-- `DiskManager.write_page`: extends the file with zero bytes if it is
shorter than `(page_id + 1) * PAGE_SIZE`, writes the page at its offset,
then updates the write counters and returns success.  (OS-level `IOError`,
the only failure path in the source, is outside the model.) -/
def DiskManager.write_page (dm : DiskManager) (page : Page) (elapsed : Nat) :
    DiskManager × Bool :=
  ({ dm with
      fileSize := max dm.fileSize ((page.page_id + 1) * PAGE_SIZE)
      write_count := dm.write_count + 1
      total_write_time := dm.total_write_time + elapsed
      bytes_written := dm.bytes_written + PAGE_SIZE },
    true)

/-- `DiskManager.reset_stats`: zeroes all six statistics counters. -/
def DiskManager.reset_stats (dm : DiskManager) : DiskManager :=
  { dm with
      read_count := 0, write_count := 0
      total_read_time := 0, total_write_time := 0
      bytes_read := 0, bytes_written := 0 }

/-- The counter-valued fields of the dict returned by
`DiskManager.get_stats` (derived ratios are omitted). -/
structure DiskStats where
  reads : Nat
  writes : Nat
  total_read_time : Nat
  total_write_time : Nat
  total_io_time : Nat
  bytes_read : Nat
  bytes_written : Nat
  deriving DecidableEq, Repr

/-- `DiskManager.get_stats`, restricted to the counters. -/
def DiskManager.get_stats (dm : DiskManager) : DiskStats :=
  { reads := dm.read_count, writes := dm.write_count
    total_read_time := dm.total_read_time
    total_write_time := dm.total_write_time
    total_io_time := dm.total_read_time + dm.total_write_time
    bytes_read := dm.bytes_read, bytes_written := dm.bytes_written }

/-- `BufferFrame` of step03_with_buffer_manager.py. -/
structure Frame where
  frame_id : Nat
  page : Option Page
  page_id : Option Nat
  is_dirty : Bool
  last_accessed : Nat
  access_frequency : Nat
  clock_bit : Bool
  deriving DecidableEq, Repr

/-- `BufferFrame.__init__`. -/
def Frame.mkInit (i : Nat) : Frame :=
  { frame_id := i, page := none, page_id := none, is_dirty := false
    last_accessed := 0, access_frequency := 0, clock_bit := false }

/-- `frame.is_free()`: the frame holds no page. -/
def Frame.is_free (f : Frame) : Bool := f.page.isNone

/-- The replacement policy selected at construction.  The source dispatches on
a string: "LRU" and "CLOCK" select `_evict_lru` / `_evict_clock`, anything
else falls back to `_evict_fifo`.  `lruModelled` is an additional arm for the
spec-modelled completion of the `_evict_lru` student stub (see
`BufferManager.evict_lru_modelled`). -/
inductive Policy where
  | lru
  | clock
  | fifo
  | lruModelled
  deriving DecidableEq, Repr

/-- The `BufferManager` state of step03_with_buffer_manager.py. -/
structure BufferManager where
  pool_size : Nat
  policy : Policy
  frames : List Frame
  page_table : Nat → Option Nat
  free_frames : List Nat
  access_counter : Nat
  clock_hand : Nat
  hits : Nat
  misses : Nat
  evictions : Nat

/-- `BufferManager.__init__(disk_manager, pool_size, policy)`. -/
def BufferManager.mkInit (pool_size : Nat) (policy : Policy) : BufferManager :=
  { pool_size := pool_size, policy := policy
    frames := (List.range pool_size).map Frame.mkInit
    page_table := fun _ => none
    free_frames := List.range pool_size
    access_counter := 0, clock_hand := 0
    hits := 0, misses := 0, evictions := 0 }

/-- `self.page_table[page_id] = frame_id`. -/
def ptInsert (pt : Nat → Option Nat) (pid fid : Nat) : Nat → Option Nat :=
  fun p => if p = pid then some fid else pt p

/-- `del self.page_table[page_id]` (a no-op when the key is absent, matching
the guarded delete in the source). -/
def ptErase (pt : Nat → Option Nat) (pid : Nat) : Nat → Option Nat :=
  fun p => if p = pid then none else pt p

/-- Result of `_write_back_and_clear_frame`: new state plus the number of
disk writes performed (1 when the victim was dirty). -/
structure WbResult where
  bm : BufferManager
  dm : DiskManager
  writes : Nat

/-- `BufferManager._write_back_and_clear_frame(frame_id)`: write the page
back through the disk manager if the frame is dirty, delete the frame's
page-table entry, clear the frame (page, page_id, dirty flag and access
frequency — `last_accessed` and `clock_bit` are left as they are), and bump
the eviction counter. -/
def BufferManager.write_back_and_clear_frame (s : BufferManager)
    (dm : DiskManager) (fid : Nat) (dW : Nat) : WbResult :=
  let frame := s.frames.getD fid (Frame.mkInit 0)
  let dmw : DiskManager × Nat :=
    match frame.page with
    | some p => if frame.is_dirty then ((dm.write_page p dW).1, 1) else (dm, 0)
    | none => (dm, 0)
  let pt :=
    match frame.page_id with
    | some opid => ptErase s.page_table opid
    | none => s.page_table
  { bm :=
      { s with
          frames := s.frames.set fid
            { frame with
                page := none, page_id := none, is_dirty := false
                access_frequency := 0 }
          page_table := pt
          evictions := s.evictions + 1 }
    dm := dmw.1
    writes := dmw.2 }

/-- Result of an eviction attempt: new state, the victim frame id (if any)
and the number of disk writes performed. -/
structure EvictResult where
  bm : BufferManager
  dm : DiskManager
  victim : Option Nat
  writes : Nat

/-- `BufferManager._evict_fifo`: scan the frame array in slot order and evict
the first occupied frame. -/
def BufferManager.evict_fifo (s : BufferManager) (dm : DiskManager)
    (dW : Nat) : EvictResult :=
  match s.frames.find? (fun f => f.page.isSome) with
  | some f =>
      let r := s.write_back_and_clear_frame dm f.frame_id dW
      { bm := r.bm, dm := r.dm, victim := some f.frame_id, writes := r.writes }
  | none => { bm := s, dm := dm, victim := none, writes := 0 }

/-- The body of the `while True` loop of `BufferManager._evict_clock`.  The
loop inspects the frame under the hand, advances the hand, returns a free
frame or a clock_bit-false occupied frame immediately, clears a set clock bit
otherwise, and breaks (returning `None`) when the hand is back at its start —
which happens after exactly `pool_size` inspections, the fuel used here.  (For
`pool_size = 0` the Python code would raise IndexError on `frames[0]`; the
model returns `None`; all claims assume a nonempty pool.) -/
def BufferManager.evict_clock_loop (s : BufferManager) (dm : DiskManager)
    (dW : Nat) : Nat → EvictResult
  | 0 => { bm := s, dm := dm, victim := none, writes := 0 }
  | fuel + 1 =>
    let h := s.clock_hand
    let frame := s.frames.getD h (Frame.mkInit 0)
    let s1 := { s with clock_hand := (h + 1) % s.pool_size }
    if frame.is_free then
      { bm := s1, dm := dm, victim := some frame.frame_id, writes := 0 }
    else if frame.clock_bit then
      BufferManager.evict_clock_loop
        { s1 with frames := s1.frames.set h { frame with clock_bit := false } }
        dm dW fuel
    else
      let r := s1.write_back_and_clear_frame dm frame.frame_id dW
      { bm := r.bm, dm := r.dm, victim := some frame.frame_id
        writes := r.writes }

/-- `BufferManager._evict_clock`. -/
def BufferManager.evict_clock (s : BufferManager) (dm : DiskManager)
    (dW : Nat) : EvictResult :=
  s.evict_clock_loop dm dW s.pool_size

/-- `BufferManager._evict_lru` as it stands in the source: the method body is
a student TODO — `victim_frame_id` is initialised to `None`, the search loop
and the eviction call are `...` (ellipsis statement) placeholders, and
`victim_frame_id` is returned — so the call returns `None` and changes
nothing. -/
def BufferManager.evict_lru (s : BufferManager) (dm : DiskManager)
    (_dW : Nat) : EvictResult :=
  { bm := s, dm := dm, victim := none, writes := 0 }

/-- Modelled from the spec: one step of the LRU victim search (keep the
candidate with strictly smaller `last_accessed`; skip unoccupied frames). -/
def lruStep (acc : Option Frame) (f : Frame) : Option Frame :=
  if f.page.isSome then
    match acc with
    | none => some f
    | some b => if f.last_accessed < b.last_accessed then some f else acc
  else acc

/-- Modelled from the spec: body of the `_evict_lru` TODO stub, per spec §4.4
(see the comment on `Policy`); folds `lruStep` over the frame array to find
the occupied frame with minimum `last_accessed` (first wins on ties, i.e.
lowest frame index), then evicts it. -/
def BufferManager.evict_lru_modelled (s : BufferManager) (dm : DiskManager)
    (dW : Nat) : EvictResult :=
  let victim := s.frames.foldl lruStep none
  match victim with
  | some f =>
      let r := s.write_back_and_clear_frame dm f.frame_id dW
      { bm := r.bm, dm := r.dm, victim := some f.frame_id, writes := r.writes }
  | none => { bm := s, dm := dm, victim := none, writes := 0 }

/-- `BufferManager._evict_page`: dispatch on the policy ("LRU", "CLOCK",
anything else → FIFO); the `lruModelled` arm runs the spec-modelled LRU
completion. -/
def BufferManager.evict_page (s : BufferManager) (dm : DiskManager)
    (dW : Nat) : EvictResult :=
  match s.policy with
  | .lru => s.evict_lru dm dW
  | .clock => s.evict_clock dm dW
  | .lruModelled => s.evict_lru_modelled dm dW
  | .fifo => s.evict_fifo dm dW

/-- `BufferManager._get_free_frame`: `self.free_frames.pop()` removes and
returns the *last* element of the Python list, if any. -/
def BufferManager.get_free_frame (s : BufferManager) :
    BufferManager × Option Nat :=
  match s.free_frames.getLast? with
  | some fid => ({ s with free_frames := s.free_frames.dropLast }, some fid)
  | none => (s, none)

/-- Result of `get_page` / `_load_page_from_disk`: the new buffer and disk
states, the returned page (if any), and how many disk reads and writes the
call performed. -/
structure GetResult where
  bm : BufferManager
  dm : DiskManager
  page : Option Page
  reads : Nat
  writes : Nat

/-- `BufferManager._load_page_from_disk(page_id)`: obtain a frame (free list
first, then eviction); if none, fail.  Then read the page from disk; on
failure return the frame to the free list (if it is not already there) and
fail; on success install the page in the frame and insert the page-table
entry. -/
def BufferManager.load_page_from_disk (s : BufferManager) (dm : DiskManager)
    (pid dR dW : Nat) : GetResult :=
  let p1 := s.get_free_frame
  let e : EvictResult :=
    match p1.2 with
    | some fid => { bm := p1.1, dm := dm, victim := some fid, writes := 0 }
    | none => p1.1.evict_page dm dW
  match e.victim with
  | none => { bm := e.bm, dm := e.dm, page := none, reads := 0
              writes := e.writes }
  | some fid =>
    let rd := e.dm.read_page pid dR
    match rd.2 with
    | none =>
        let s2 :=
          if fid ∈ e.bm.free_frames then e.bm
          else { e.bm with free_frames := e.bm.free_frames ++ [fid] }
        { bm := s2, dm := rd.1, page := none, reads := 1, writes := e.writes }
    | some page =>
        let frame := e.bm.frames.getD fid (Frame.mkInit 0)
        let frame :=
          { frame with
              page := some page, page_id := some pid, is_dirty := false
              last_accessed := e.bm.access_counter, access_frequency := 1 }
        { bm :=
            { e.bm with
                frames := e.bm.frames.set fid frame
                page_table := ptInsert e.bm.page_table pid fid }
          dm := rd.1, page := some page, reads := 1, writes := e.writes }

/-- `BufferManager.get_page(page_id)`: bump the global access counter; on a
hit refresh the frame's recency metadata (`last_accessed`, `access_frequency`,
`clock_bit`), count the hit and return the cached page without disk I/O;
on a miss count the miss and load from disk. -/
def BufferManager.get_page (s : BufferManager) (dm : DiskManager)
    (pid dR dW : Nat) : GetResult :=
  let s1 := { s with access_counter := s.access_counter + 1 }
  match s1.page_table pid with
  | some fid =>
      let frame := s1.frames.getD fid (Frame.mkInit 0)
      let frame1 :=
        { frame with
            last_accessed := s1.access_counter
            access_frequency := frame.access_frequency + 1
            clock_bit := true }
      { bm := { s1 with frames := s1.frames.set fid frame1
                        hits := s1.hits + 1 }
        dm := dm, page := frame.page, reads := 0, writes := 0 }
  | none =>
      let s2 := { s1 with misses := s1.misses + 1 }
      s2.load_page_from_disk dm pid dR dW

/-- Run a sequence of `get_page` calls; each request carries the page id and
the tick durations of the (at most one) disk read and write it may issue. -/
def BufferManager.run (s : BufferManager) (dm : DiskManager) :
    List (Nat × Nat × Nat) → BufferManager × DiskManager
  | [] => (s, dm)
  | (pid, dR, dW) :: rest =>
      let r := s.get_page dm pid dR dW
      r.bm.run r.dm rest

/-- The hit/miss outcome of each call in a request sequence (`true` = hit),
read off from the hit counter of the source-defined `get_page`. -/
def BufferManager.traceHits (s : BufferManager) (dm : DiskManager) :
    List (Nat × Nat × Nat) → List Bool
  | [] => []
  | (pid, dR, dW) :: rest =>
      let r := s.get_page dm pid dR dW
      (r.bm.hits == s.hits + 1) :: r.bm.traceHits r.dm rest

def c3Disk : DiskManager := DiskManager.init (12 * PAGE_SIZE)

/-- The warmed-up pool for C3: both frames occupied, both reference bits set
by the two hits. -/
def c3Warm : BufferManager × DiskManager :=
  (BufferManager.mkInit 2 .clock).run c3Disk
    [(10, 0, 0), (11, 0, 0), (10, 0, 0), (11, 0, 0)]

/-- The concrete reachable FIFO state used to instantiate the amended C4
theorem: a full 2-frame pool after get_page(0) and get_page(1). -/
def c4State : BufferManager :=
  ((BufferManager.mkInit 2 .fifo).run (DiskManager.init (3 * PAGE_SIZE))
    [(0, 0, 0), (1, 0, 0)]).1

/-- The buffer-pool well-formedness invariant. -/
structure WF (s : BufferManager) : Prop where
  frames_len : s.frames.length = s.pool_size
  frame_ids : ∀ i, ∀ hi : i < s.frames.length, (s.frames.get ⟨i, hi⟩).frame_id = i
  page_iff : ∀ i, ∀ hi : i < s.frames.length,
    (s.frames.get ⟨i, hi⟩).page.isSome ↔ (s.frames.get ⟨i, hi⟩).page_id.isSome
  table_to_frame : ∀ p f, s.page_table p = some f →
    ∃ hf : f < s.frames.length, (s.frames.get ⟨f, hf⟩).page_id = some p
  frame_to_table : ∀ i, ∀ hi : i < s.frames.length, ∀ p,
    (s.frames.get ⟨i, hi⟩).page_id = some p → s.page_table p = some i
  free_nodup : s.free_frames.Nodup
  free_sub : ∀ f ∈ s.free_frames,
    ∃ hf : f < s.frames.length, (s.frames.get ⟨f, hf⟩).page = none
  free_complete : ∀ i, ∀ hi : i < s.frames.length,
    (s.frames.get ⟨i, hi⟩).page = none → i ∈ s.free_frames
  count_eq : s.free_frames.length
      + s.frames.countP (fun f => f.page.isSome) = s.pool_size
  hand_ok : s.pool_size = 0 ∨ s.clock_hand < s.pool_size

/-- State of the pool when a frame `v` has been obtained for a pending load:
`v` is clear, outside the free list, and counted; all other `WF` clauses
hold. -/
structure EvictedOK (s : BufferManager) (v : Nat) : Prop where
  frames_len : s.frames.length = s.pool_size
  frame_ids : ∀ i, ∀ hi : i < s.frames.length, (s.frames.get ⟨i, hi⟩).frame_id = i
  page_iff : ∀ i, ∀ hi : i < s.frames.length,
    (s.frames.get ⟨i, hi⟩).page.isSome ↔ (s.frames.get ⟨i, hi⟩).page_id.isSome
  table_to_frame : ∀ p f, s.page_table p = some f →
    ∃ hf : f < s.frames.length, (s.frames.get ⟨f, hf⟩).page_id = some p
  frame_to_table : ∀ i, ∀ hi : i < s.frames.length, ∀ p,
    (s.frames.get ⟨i, hi⟩).page_id = some p → s.page_table p = some i
  free_nodup : s.free_frames.Nodup
  free_sub : ∀ f ∈ s.free_frames,
    ∃ hf : f < s.frames.length, (s.frames.get ⟨f, hf⟩).page = none
  free_complete1 : ∀ i, ∀ hi : i < s.frames.length, i ≠ v →
    (s.frames.get ⟨i, hi⟩).page = none → i ∈ s.free_frames
  victim_lt : v < s.frames.length
  victim_page : (s.frames.get ⟨v, victim_lt⟩).page = none
  victim_pid : (s.frames.get ⟨v, victim_lt⟩).page_id = none
  victim_not_free : v ∉ s.free_frames
  count_eq1 : s.free_frames.length + 1
      + s.frames.countP (fun f => f.page.isSome) = s.pool_size
  hand_ok : s.pool_size = 0 ∨ s.clock_hand < s.pool_size

/-- A pool with no dirty frame (every reachable state here, since `get_page`
never dirties a frame). -/
abbrev AllClean (s : BufferManager) : Prop :=
  ∀ f ∈ s.frames, f.is_dirty = false

/-- Concrete reachable state for the C6 witness: a 1-frame FIFO pool that has
loaded page 0 from a 1-page file. -/
def c6State : BufferManager :=
  ((BufferManager.mkInit 1 .fifo).run (DiskManager.init PAGE_SIZE)
    [(0, 0, 0)]).1

/-- The matching disk-manager state for the C6 witness. -/
def c6Disk : DiskManager :=
  ((BufferManager.mkInit 1 .fifo).run (DiskManager.init PAGE_SIZE)
    [(0, 0, 0)]).2

/-- Concrete reachable state for the C7 witness: a 2-frame CLOCK pool holding
pages 10 and 11. -/
def c7State : BufferManager :=
  ((BufferManager.mkInit 2 .clock).run (DiskManager.init (12 * PAGE_SIZE))
    [(10, 0, 0), (11, 0, 0)]).1

/-- The matching disk-manager state for the C7 witness. -/
def c7Disk : DiskManager :=
  ((BufferManager.mkInit 2 .clock).run (DiskManager.init (12 * PAGE_SIZE))
    [(10, 0, 0), (11, 0, 0)]).2

/-- `ExtendedBufferFrame` of step05_bufferLLMemory.py (the fields victim
selection reads). -/
structure ExtFrame where
  frame_id : Nat
  page : Option Page
  page_id : Option Nat
  user_id : Option Nat
  priority : Nat
  last_accessed : Nat
  is_dirty : Bool
  deriving DecidableEq, Repr

/-- Whether the frame's owning tenant is active:
`self.user_sessions[user_id].is_active if user_id in self.user_sessions else
False`. -/
def frameActive (sessions : Nat → Option Bool) (f : ExtFrame) : Bool :=
  match f.user_id with
  | some u => (sessions u).getD false
  | none => false

/-- The victim-selection key of spec §4.5: activity class first (inactive
preferred), then `priority_score` (lower preferred), then `last_accessed`
(least recently used preferred). -/
def evKey (active : Bool) (f : ExtFrame) : Nat × Nat × Nat :=
  ((if active then 1 else 0), f.priority, f.last_accessed)

/-- Strict lexicographic order on selection keys. -/
def evLexLt (a b : Nat × Nat × Nat) : Prop :=
  a.1 < b.1 ∨ (a.1 = b.1 ∧ (a.2.1 < b.2.1 ∨ (a.2.1 = b.2.1 ∧ a.2.2 < b.2.2)))

instance (a b : Nat × Nat × Nat) : Decidable (evLexLt a b) := by
  unfold evLexLt
  infer_instance

/-- The selection key of a frame. -/
def uaKey (sessions : Nat → Option Bool) (f : ExtFrame) : Nat × Nat × Nat :=
  evKey (frameActive sessions f) f

/-- Modelled from the spec: one step of the victim search of
`_evict_user_aware_lru` (spec §4.5) — keep the occupied frame with the
lexicographically smaller (activity, priority, last_accessed) key. -/
def uaStep (sessions : Nat → Option Bool) (acc : Option ExtFrame)
    (f : ExtFrame) : Option ExtFrame :=
  if f.page.isSome then
    match acc with
    | none => some f
    | some b => if evLexLt (uaKey sessions f) (uaKey sessions b) then some f
        else acc
  else acc

/-- Modelled from the spec: the victim selection of
`_evict_user_aware_lru`, whose loop body the source leaves as a student
placeholder (`best_victim_frame` is never assigned).  Spec §4.5: the victim
is the lexicographic minimum over occupied frames of
(tenant inactive-first, lowest priority_score, least recently used). -/
def select_victim_modelled (sessions : Nat → Option Bool)
    (frames : List ExtFrame) : Option ExtFrame :=
  frames.foldl (uaStep sessions) none

/-- Witness fixtures for C8: an inactive tenant 7 holding a high-priority
recent frame, an active tenant 8 holding a low-priority older frame. -/
def c8FrameA : ExtFrame :=
  { frame_id := 0, page := some { page_id := 1 }, page_id := some 1
    user_id := some 7, priority := 100, last_accessed := 5, is_dirty := false }

def c8FrameB : ExtFrame :=
  { frame_id := 1, page := some { page_id := 2 }, page_id := some 2
    user_id := some 8, priority := 20, last_accessed := 9, is_dirty := false }

def c8Frames : List ExtFrame := [c8FrameA, c8FrameB]

def c8Sessions : Nat → Option Bool := fun u =>
  if u = 7 then some false else if u = 8 then some true else none

/-! ## Theorems -/

/-- **C1** (code bug): the claim says decoding the 32-byte encoding yields a
record equal to the original in every field, including price, for all fields
within the unsigned 32-bit widths.  The code computes the stored cents as
`int(self.price * 100)` in binary64 floating point, which truncates one ulp
low for many two-decimal prices: for `Order(1, 100, 50, 2, 0.29, 365, 1)` the
product 0.29 * 100 evaluates to 28.999999999999996, so 28 cents are stored and
the decoded price is 0.28, not 0.29.  This theorem evaluates the encoding at
that failing input: the stored cents are 28 and the decoded record differs
from the original in the price field. -/
theorem order_price_roundtrip_bug_c1 :
    storedCents0_29 = 28 ∧
    (Order.to_bytesWithCents orderPrice0_29 (Int.toNat storedCents0_29)).bind
      Order.from_bytes = some { orderPrice0_29 with price := mkRat 28 100 } ∧
    mkRat 28 100 ≠ orderPrice0_29.price := by
  decide

theorem getD_take_of_lt (l : List Nat) (n i : Nat) (h : i < n) :
    (l.take n).getD i 0 = l.getD i 0 := by
  simp [List.getD_eq_getElem?_getD, List.getElem?_take, h]

theorem readLE4_drop_take (l : List Nat) (k n : Nat) (h : k + 4 ≤ n) :
    readLE4 ((l.take n).drop k) = readLE4 (l.drop k) := by
  rw [List.drop_take]
  unfold readLE4
  rw [getD_take_of_lt _ _ _ (by omega), getD_take_of_lt _ _ _ (by omega),
    getD_take_of_lt _ _ _ (by omega), getD_take_of_lt _ _ _ (by omega)]

/-- **C10** (confirmed): `Order.from_bytes` accepts any buffer of length at
least `RECORD_SIZE = 32`, decodes exactly the first 32 bytes (so trailing
bytes are ignored), and fails if and only if the buffer is shorter than 32
bytes. -/
theorem order_from_bytes_prefix_c10 (data : List Nat) :
    (Order.from_bytes data = none ↔ data.length < RECORD_SIZE) ∧
    Order.from_bytes data = Order.from_bytes (data.take RECORD_SIZE) := by
  constructor
  · unfold Order.from_bytes
    split
    · simpa
    · next h => simpa using h
  · unfold Order.from_bytes
    by_cases h : data.length < RECORD_SIZE
    · rw [if_pos h, if_pos (by simp [List.length_take]; omega)]
    · rw [if_neg h, if_neg (by simp [List.length_take]; omega)]
      refine congrArg some ?_
      simp only [Order.mk.injEq]
      have e0 := readLE4_drop_take data 0 RECORD_SIZE (by decide)
      simp only [List.drop_zero] at e0
      exact ⟨e0.symm, (readLE4_drop_take data 4 _ (by decide)).symm,
        (readLE4_drop_take data 8 _ (by decide)).symm,
        (readLE4_drop_take data 12 _ (by decide)).symm,
        congrArg (mkRat · 100) (congrArg Int.ofNat
          (readLE4_drop_take data 16 _ (by decide)).symm),
        (readLE4_drop_take data 20 _ (by decide)).symm,
        (readLE4_drop_take data 24 _ (by decide)).symm⟩

/-! ## Disk manager (`DiskManager` in disk_manager.py)

The backing file is modelled by its length in bytes; page contents are not
tracked because no claim depends on the decoded orders, only on page identity
(`DiskPage.from_bytes(page_id, data)` stamps the requested id on the decoded
page).  Wall-clock durations measured with `time.perf_counter()` are modelled
as abstract nonnegative tick counts supplied to each call. -/

/-- **C9** (counterexample): the claim says *every* call to `read_page`
increments the read counters, but a `read_page` against a page beyond the end
of the file (here: an empty file) returns no page and leaves the statistics
exactly as they were — the counters are only updated on the successful branch
of `read_page`. -/
theorem read_page_failure_stats_c9_cex :
    (DiskManager.read_page (DiskManager.init 0) 0 7).2 = none ∧
    (DiskManager.read_page (DiskManager.init 0) 0 7).1 = DiskManager.init 0 ∧
    (DiskManager.read_page (DiskManager.init 0) 0 7).1.get_stats.reads
      = (DiskManager.init 0).get_stats.reads := by
  decide

/-- **C9** (amended): every *successful* `read_page` increments the read
count, byte count and cumulative read wall time exposed by `get_stats` (and a
failed read changes nothing and returns no page); every `write_page`
increments the corresponding write counters; `reset_stats` zeroes all of the
counters. -/
theorem disk_stats_increment_c9 (dm : DiskManager) (pid : Nat) (page : Page)
    (dR dW : Nat) (hok : (pid + 1) * PAGE_SIZE ≤ dm.fileSize) :
    ((dm.read_page pid dR).1.get_stats.reads = dm.get_stats.reads + 1 ∧
      (dm.read_page pid dR).1.get_stats.bytes_read
        = dm.get_stats.bytes_read + PAGE_SIZE ∧
      (dm.read_page pid dR).1.get_stats.total_read_time
        = dm.get_stats.total_read_time + dR ∧
      (dm.read_page pid dR).2.isSome) ∧
    ((dm.write_page page dW).1.get_stats.writes = dm.get_stats.writes + 1 ∧
      (dm.write_page page dW).1.get_stats.bytes_written
        = dm.get_stats.bytes_written + PAGE_SIZE ∧
      (dm.write_page page dW).1.get_stats.total_write_time
        = dm.get_stats.total_write_time + dW) ∧
    (∀ dm2 : DiskManager, ¬ (pid + 1) * PAGE_SIZE ≤ dm2.fileSize →
      (dm2.read_page pid dR).1 = dm2 ∧ (dm2.read_page pid dR).2 = none) ∧
    dm.reset_stats.get_stats
      = { reads := 0, writes := 0, total_read_time := 0, total_write_time := 0
          total_io_time := 0, bytes_read := 0, bytes_written := 0 } := by
  refine ⟨?_, ?_, ?_, ?_⟩
  · simp [DiskManager.read_page, hok, DiskManager.get_stats]
  · simp [DiskManager.write_page, DiskManager.get_stats]
  · intro dm2 hbad
    simp [DiskManager.read_page, hbad]
  · simp [DiskManager.reset_stats, DiskManager.get_stats]

theorem disk_stats_increment_c9_witness :
    (0 + 1) * PAGE_SIZE ≤ (DiskManager.init 4096).fileSize ∧
    (((DiskManager.init 4096).read_page 0 3).1.get_stats.reads
        = (DiskManager.init 4096).get_stats.reads + 1 ∧
      ((DiskManager.init 4096).read_page 0 3).1.get_stats.bytes_read
        = (DiskManager.init 4096).get_stats.bytes_read + PAGE_SIZE ∧
      ((DiskManager.init 4096).read_page 0 3).1.get_stats.total_read_time
        = (DiskManager.init 4096).get_stats.total_read_time + 3 ∧
      ((DiskManager.init 4096).read_page 0 3).2.isSome) ∧
    (((DiskManager.init 4096).write_page { page_id := 2 } 5).1.get_stats.writes
        = (DiskManager.init 4096).get_stats.writes + 1 ∧
      ((DiskManager.init 4096).write_page { page_id := 2 } 5).1.get_stats.bytes_written
        = (DiskManager.init 4096).get_stats.bytes_written + PAGE_SIZE ∧
      ((DiskManager.init 4096).write_page { page_id := 2 } 5).1.get_stats.total_write_time
        = (DiskManager.init 4096).get_stats.total_write_time + 5) ∧
    (∀ dm2 : DiskManager, ¬ (0 + 1) * PAGE_SIZE ≤ dm2.fileSize →
      (dm2.read_page 0 3).1 = dm2 ∧ (dm2.read_page 0 3).2 = none) ∧
    (DiskManager.init 4096).reset_stats.get_stats
      = { reads := 0, writes := 0, total_read_time := 0, total_write_time := 0
          total_io_time := 0, bytes_read := 0, bytes_written := 0 } := by
  exact ⟨by decide,
    disk_stats_increment_c9 (DiskManager.init 4096) 0 { page_id := 2 } 3 5
      (by decide)⟩

/-! ## Buffer manager (`BufferManager` in step03_with_buffer_manager.py)

The page table (a Python dict) is modelled as a function from page id to
optional frame id; the free-frame list as a `List Nat` (`list.pop()` removes
the last element); counters as Nat.  Each `get_page` call additionally reports
how many disk reads and disk writes it performed, so that claims about
"touching disk" can be stated. -/

/-- **C3** (code bug): the claim (and spec §4.4) says that on a fully occupied
pool with every reference bit set, CLOCK clears all bits on the first
revolution and then evicts the frame the hand started at on the second pass,
without failing.  The code's "avoid infinite loop" guard
(`if self.clock_hand == start_hand: break`) fires at the end of the first
revolution, so `_evict_clock` returns `None` — an eviction failure on a
non-empty pool, which spec §7 itself calls a policy-implementation bug.
Failing input: a 2-frame pool warmed by get_page(10), get_page(11),
get_page(10), get_page(11) (both frames occupied, both bits set by the hits);
the eviction clears both bits, evicts nothing and fails. -/
theorem evict_clock_full_pool_bug_c3 :
    c3Warm.1.frames.map Frame.is_free = [false, false] ∧
    c3Warm.1.frames.map Frame.clock_bit = [true, true] ∧
    c3Warm.1.free_frames = [] ∧
    (c3Warm.1.evict_clock c3Warm.2 0).victim = none ∧
    (c3Warm.1.evict_clock c3Warm.2 0).bm.frames.map Frame.clock_bit
      = [false, false] ∧
    (c3Warm.1.evict_clock c3Warm.2 0).bm.evictions = c3Warm.1.evictions := by
  decide

/-- **C4** (counterexample): the claim says the FIFO victim is the occupant
installed earliest.  Reachable refutation: on a fresh 2-frame FIFO pool,
get_page(0) installs page 0 in frame 1 (the free list pops from the end),
then get_page(1) installs page 1 in frame 0.  With the pool full, eviction
picks frame 0 — whose occupant page 1 was installed *later*
(`last_accessed` 2 vs 1) — and the earliest-installed page 0 survives. -/
theorem evict_fifo_not_insertion_order_c4_cex :
    let dm0 := DiskManager.init (3 * PAGE_SIZE)
    let p := (BufferManager.mkInit 2 .fifo).run dm0 [(0, 0, 0), (1, 0, 0)]
    let s := p.1
    s.frames.map Frame.page_id = [some 1, some 0] ∧
    s.frames.map Frame.last_accessed = [2, 1] ∧
    s.free_frames = [] ∧
    (s.evict_fifo p.2 0).victim = some 0 ∧
    (s.evict_fifo p.2 0).bm.page_table 1 = none ∧
    (s.evict_fifo p.2 0).bm.page_table 0 = some 1 := by
  decide

theorem find_first_occupied_spec (l : List Frame) (f : Frame)
    (h : l.find? (fun fr => fr.page.isSome) = some f) :
    ∃ i, ∃ hi : i < l.length, l.get ⟨i, hi⟩ = f ∧
      ∀ j, ∀ hj : j < i, (l.get ⟨j, by omega⟩).page.isSome = false := by
  induction l with
  | nil => simp [List.find?] at h
  | cons a t ih =>
    rw [List.find?] at h
    by_cases ha : a.page.isSome
    · rw [ha] at h
      simp only [Option.some.injEq] at h
      exact ⟨0, by simp, by simpa using h, fun j hj => by omega⟩
    · rw [Bool.eq_false_iff.mpr ha] at h
      obtain ⟨i, hi, hget, hfirst⟩ := ih h
      refine ⟨i + 1, by simpa using Nat.succ_lt_succ hi, by simpa using hget,
        fun j hj => ?_⟩
      cases j with
      | zero => simpa using Bool.eq_false_iff.mpr ha
      | succ j1 => simpa using hfirst j1 (by omega)

/-- **C4** (amended): under the FIFO policy, whenever some frame is occupied
(and frame ids match slot indices, as they always do for reachable states),
the eviction victim is the occupied frame with the *lowest slot index* — not
the earliest-installed occupant, from which it drifts (see the
counterexample). -/
theorem evict_fifo_lowest_index_c4 (s : BufferManager) (dm : DiskManager)
    (dW : Nat)
    (hid : ∀ i, ∀ hi : i < s.frames.length, (s.frames.get ⟨i, hi⟩).frame_id = i)
    (hocc : ∃ f ∈ s.frames, f.page.isSome) :
    ∃ i, ∃ hi : i < s.frames.length,
      (s.evict_fifo dm dW).victim = some i ∧
      (s.frames.get ⟨i, hi⟩).page.isSome = true ∧
      ∀ j, ∀ hj : j < i, (s.frames.get ⟨j, by omega⟩).page.isSome = false := by
  obtain ⟨f, hf, hfp⟩ := hocc
  have hfind : (s.frames.find? (fun fr => fr.page.isSome)).isSome := by
    rw [List.find?_isSome]
    exact ⟨f, hf, hfp⟩
  obtain ⟨g, hg⟩ := Option.isSome_iff_exists.mp hfind
  obtain ⟨i, hi, hget, hfirst⟩ := find_first_occupied_spec s.frames g hg
  have hgp : g.page.isSome = true := by
    have h2 := List.find?_some hg
    simpa using h2
  refine ⟨i, hi, ?_, by rw [hget]; exact hgp, hfirst⟩
  unfold BufferManager.evict_fifo
  rw [hg]
  have : g.frame_id = i := by rw [← hget]; exact hid i hi
  simp [this]

theorem evict_fifo_lowest_index_c4_witness :
    (∀ i, ∀ hi : i < c4State.frames.length,
      (c4State.frames.get ⟨i, hi⟩).frame_id = i) ∧
    (∃ f ∈ c4State.frames, f.page.isSome) ∧
    (∃ i, ∃ hi : i < c4State.frames.length,
      (c4State.evict_fifo (DiskManager.init (3 * PAGE_SIZE)) 0).victim = some i ∧
      (c4State.frames.get ⟨i, hi⟩).page.isSome = true ∧
      ∀ j, ∀ hj : j < i,
        (c4State.frames.get ⟨j, by omega⟩).page.isSome = false) := by
  refine ⟨?_, ?_, ?_⟩
  · decide
  · decide
  · exact evict_fifo_lowest_index_c4 c4State (DiskManager.init (3 * PAGE_SIZE))
      0 (by decide) (by decide)

/-! ### The buffer-pool invariant (claim C2)

`WF` packages the page-table/frame/free-list invariant; it is established for
the fresh pool and preserved by every `get_page` call.  `EvictedOK` describes
the intermediate state between obtaining a frame (from the free list or by
eviction) and either installing a page in it or returning it to the free
list: the designated frame is clear and accounted for outside the free
list, everything else is as in `WF`. -/

/-- The fresh pool is well-formed. -/
theorem wf_mkInit (n : Nat) (pol : Policy) : WF (BufferManager.mkInit n pol) := by
  refine ⟨?_, ?_, ?_, ?_, ?_, ?_, ?_, ?_, ?_, ?_⟩
  · simp [BufferManager.mkInit]
  · intro i hi
    simp [BufferManager.mkInit, List.get_eq_getElem, List.getElem_map,
      List.getElem_range, Frame.mkInit]
  · intro i hi
    simp [BufferManager.mkInit, List.get_eq_getElem, Frame.mkInit]
  · intro p f h
    simp [BufferManager.mkInit] at h
  · intro i hi p h
    simp [BufferManager.mkInit, List.get_eq_getElem, Frame.mkInit] at h
  · exact List.nodup_range n
  · intro f hf
    simp [BufferManager.mkInit] at hf ⊢
    refine ⟨hf, ?_⟩
    simp [List.get_eq_getElem, List.getElem_map, List.getElem_range, Frame.mkInit]
  · intro i hi h
    simp [BufferManager.mkInit] at hi ⊢
    exact hi
  · simp [BufferManager.mkInit]
    intro a ha
    simp [Frame.mkInit]
  · exact Nat.eq_zero_or_pos n

theorem getD_eq_get (l : List Frame) (i : Nat) (h : i < l.length) :
    l.getD i (Frame.mkInit 0) = l.get ⟨i, h⟩ := by
  simp [List.getD_eq_getElem?_getD, List.getElem?_eq_getElem h, List.get_eq_getElem]

/-- `_write_back_and_clear_frame` on an occupied frame of a well-formed pool
leaves the pool in the `EvictedOK` intermediate state, does not touch the
free list, policy, pool size or hand, and only removes page-table entries. -/
theorem wb_post (s : BufferManager) (dm : DiskManager) (fid dW : Nat)
    (hwf : WF s) (hfid : fid < s.frames.length)
    (hocc : (s.frames.get ⟨fid, hfid⟩).page.isSome) :
    EvictedOK (s.write_back_and_clear_frame dm fid dW).bm fid ∧
    (s.write_back_and_clear_frame dm fid dW).bm.free_frames = s.free_frames ∧
    (s.write_back_and_clear_frame dm fid dW).bm.policy = s.policy ∧
    (s.write_back_and_clear_frame dm fid dW).bm.pool_size = s.pool_size ∧
    (s.write_back_and_clear_frame dm fid dW).bm.clock_hand = s.clock_hand ∧
    (∀ p f, (s.write_back_and_clear_frame dm fid dW).bm.page_table p = some f →
      s.page_table p = some f) := by
  obtain ⟨opid, hopid⟩ : ∃ o, (s.frames.get ⟨fid, hfid⟩).page_id = some o := by
    have h1 := (hwf.page_iff fid hfid).mp hocc
    exact Option.isSome_iff_exists.mp h1
  have hgetD := getD_eq_get s.frames fid hfid
  have hbm : (s.write_back_and_clear_frame dm fid dW).bm =
      { s with
          frames := s.frames.set fid
            { s.frames.get ⟨fid, hfid⟩ with
                page := none, page_id := none, is_dirty := false
                access_frequency := 0 }
          page_table := ptErase s.page_table opid
          evictions := s.evictions + 1 } := by
    simp only [BufferManager.write_back_and_clear_frame, hgetD, hopid]
  have hnotfree : fid ∉ s.free_frames := by
    intro hmem
    obtain ⟨hf, hnone⟩ := hwf.free_sub fid hmem
    rw [hnone] at hocc
    simp at hocc
  rw [hbm]
  refine ⟨⟨?_, ?_, ?_, ?_, ?_, ?_, ?_, ?_, ?_, ?_, ?_, ?_, ?_, ?_⟩,
    rfl, rfl, rfl, rfl, ?_⟩
  · simpa using hwf.frames_len
  · intro i hi
    simp only [List.length_set] at hi
    by_cases hcase : fid = i
    · subst hcase
      simp [List.get_eq_getElem, List.getElem_set]
      have := hwf.frame_ids fid hfid
      simpa [List.get_eq_getElem] using this
    · simp [List.get_eq_getElem, List.getElem_set, hcase]
      have := hwf.frame_ids i hi
      simpa [List.get_eq_getElem] using this
  · intro i hi
    simp only [List.length_set] at hi
    by_cases hcase : fid = i
    · subst hcase
      simp [List.get_eq_getElem, List.getElem_set]
    · simp only [List.get_eq_getElem, List.getElem_set, if_neg hcase]
      have := hwf.page_iff i hi
      simpa [List.get_eq_getElem] using this
  · intro p f h
    simp only [ptErase] at h
    split at h
    · exact absurd h (by simp)
    · next hne =>
      obtain ⟨hf, hpid⟩ := hwf.table_to_frame p f h
      have hfne : f ≠ fid := by
        intro heq
        subst heq
        rw [hopid] at hpid
        exact hne (by simpa using hpid.symm)
      refine ⟨by simpa using hf, ?_⟩
      simp only [List.get_eq_getElem, List.getElem_set, if_neg (Ne.symm hfne)]
      simpa [List.get_eq_getElem] using hpid
  · intro i hi p h
    simp only [List.length_set] at hi
    by_cases hcase : fid = i
    · subst hcase
      simp [List.get_eq_getElem, List.getElem_set] at h
    · simp only [List.get_eq_getElem, List.getElem_set, if_neg hcase] at h
      have hold : s.page_table p = some i :=
        hwf.frame_to_table i hi p (by simpa [List.get_eq_getElem] using h)
      simp only [ptErase]
      split
      · next heq =>
        subst heq
        have := hwf.frame_to_table fid hfid p hopid
        rw [this] at hold
        exact absurd (by simpa using hold) hcase
      · exact hold
  · exact hwf.free_nodup
  · intro f hf
    obtain ⟨hflt, hnone⟩ := hwf.free_sub f hf
    have hfne : fid ≠ f := fun heq => hnotfree (heq ▸ hf)
    refine ⟨by simpa using hflt, ?_⟩
    simp only [List.get_eq_getElem, List.getElem_set, if_neg hfne]
    simpa [List.get_eq_getElem] using hnone
  · intro i hi hne h
    simp only [List.length_set] at hi
    by_cases hcase : fid = i
    · exact absurd hcase.symm hne
    · simp only [List.get_eq_getElem, List.getElem_set, if_neg hcase] at h
      exact hwf.free_complete i hi (by simpa [List.get_eq_getElem] using h)
  · simpa using hfid
  · simp [List.get_eq_getElem, List.getElem_set]
  · simp [List.get_eq_getElem, List.getElem_set]
  · exact hnotfree
  · dsimp only
    have hcnt := List.countP_set (fun f => f.page.isSome) s.frames fid
      { s.frames.get ⟨fid, hfid⟩ with
          page := none, page_id := none, is_dirty := false
          access_frequency := 0 } hfid
    have hpos : 0 < s.frames.countP (fun f => f.page.isSome) := by
      rw [List.countP_pos_iff]
      exact ⟨s.frames.get ⟨fid, hfid⟩, List.get_mem s.frames fid hfid, hocc⟩
    have hocc2 : s.frames[fid].page.isSome = true := by
      simpa [List.get_eq_getElem] using hocc
    simp [hocc2] at hcnt
    simp only [List.get_eq_getElem]
    rw [hcnt]
    have := hwf.count_eq
    omega
  · exact hwf.hand_ok
  · intro p f h
    simp only [ptErase] at h
    split at h
    · exact absurd h (by simp)
    · exact h

/-- `WF` is stable under overwriting one frame with a frame that carries the
same page, page id and frame id (only metadata differs), while the counters
and the clock hand move arbitrarily (the hand staying in range). -/
theorem wf_update_meta (s : BufferManager) (i : Nat) (hi : i < s.frames.length)
    (f1 : Frame) (hwf : WF s)
    (hpage : f1.page = (s.frames.get ⟨i, hi⟩).page)
    (hpid : f1.page_id = (s.frames.get ⟨i, hi⟩).page_id)
    (hfid : f1.frame_id = (s.frames.get ⟨i, hi⟩).frame_id)
    (hand2 ac2 hits2 misses2 ev2 : Nat)
    (hhand : s.pool_size = 0 ∨ hand2 < s.pool_size) :
    WF { s with
        frames := s.frames.set i f1, clock_hand := hand2
        access_counter := ac2, hits := hits2, misses := misses2
        evictions := ev2 } := by
  have hgid : ∀ j, ∀ hj : j < (s.frames.set i f1).length,
      (s.frames.set i f1).get ⟨j, hj⟩
        = if i = j then f1 else s.frames.get ⟨j, by simpa using hj⟩ := by
    intro j hj
    simp [List.get_eq_getElem, List.getElem_set]
  refine ⟨?_, ?_, ?_, ?_, ?_, ?_, ?_, ?_, ?_, ?_⟩
  · simpa using hwf.frames_len
  · intro j hj
    rw [hgid j hj]
    by_cases hcase : i = j
    · subst hcase
      rw [if_pos rfl, hfid]
      exact hwf.frame_ids i hi
    · rw [if_neg hcase]
      exact hwf.frame_ids j (by simpa using hj)
  · intro j hj
    rw [hgid j hj]
    by_cases hcase : i = j
    · subst hcase
      rw [if_pos rfl, hpage, hpid]
      exact hwf.page_iff i hi
    · rw [if_neg hcase]
      exact hwf.page_iff j (by simpa using hj)
  · intro p f h
    obtain ⟨hf, hp⟩ := hwf.table_to_frame p f h
    refine ⟨by simpa using hf, ?_⟩
    rw [hgid f (by simpa using hf)]
    by_cases hcase : i = f
    · subst hcase
      rw [if_pos rfl, hpid]
      exact hp
    · rw [if_neg hcase]
      exact hp
  · intro j hj p h
    rw [hgid j hj] at h
    by_cases hcase : i = j
    · subst hcase
      rw [if_pos rfl, hpid] at h
      exact hwf.frame_to_table i hi p h
    · rw [if_neg hcase] at h
      exact hwf.frame_to_table j (by simpa using hj) p h
  · exact hwf.free_nodup
  · intro f hf
    obtain ⟨hflt, hnone⟩ := hwf.free_sub f hf
    refine ⟨by simpa using hflt, ?_⟩
    rw [hgid f (by simpa using hflt)]
    by_cases hcase : i = f
    · subst hcase
      rw [if_pos rfl, hpage]
      exact hnone
    · rw [if_neg hcase]
      exact hnone
  · intro j hj h
    rw [hgid j hj] at h
    by_cases hcase : i = j
    · subst hcase
      rw [if_pos rfl, hpage] at h
      exact hwf.free_complete i hi h
    · rw [if_neg hcase] at h
      exact hwf.free_complete j (by simpa using hj) h
  · have hcnt := List.countP_set (fun f => f.page.isSome) s.frames i f1 hi
    have hsame : f1.page.isSome = s.frames[i].page.isSome := by
      rw [hpage]
      simp [List.get_eq_getElem]
    dsimp only
    rw [hcnt, hsame]
    have := hwf.count_eq
    have hle : (if s.frames[i].page.isSome = true then 1 else 0)
        ≤ s.frames.countP (fun f => f.page.isSome) := by
      by_cases hc : s.frames[i].page.isSome = true
      · simp only [hc, if_true]
        rw [Nat.succ_le, List.countP_pos_iff]
        exact ⟨s.frames.get ⟨i, hi⟩, List.get_mem s.frames i hi,
          by simpa [List.get_eq_getElem] using hc⟩
      · simp [hc]
    omega
  · exact hhand

/-- Popping the last free frame leaves the pool in the `EvictedOK` state for
that frame. -/
theorem free_pop_post (s : BufferManager) (hwf : WF s) (fid : Nat)
    (hlast : s.free_frames.getLast? = some fid) :
    EvictedOK { s with free_frames := s.free_frames.dropLast } fid := by
  have hne : s.free_frames ≠ [] := by
    intro h
    rw [h] at hlast
    simp at hlast
  have hfidlast : s.free_frames.getLast hne = fid := by
    rw [List.getLast?_eq_getLast s.free_frames hne, Option.some.injEq] at hlast
    exact hlast
  have hdecomp : s.free_frames.dropLast ++ [fid] = s.free_frames := by
    rw [← hfidlast]
    exact List.dropLast_append_getLast hne
  have hmem : fid ∈ s.free_frames := by
    rw [← hdecomp]
    simp
  obtain ⟨hflt, hnone⟩ := hwf.free_sub fid hmem
  have hpidnone : (s.frames.get ⟨fid, hflt⟩).page_id = none := by
    have h1 := hwf.page_iff fid hflt
    rw [hnone] at h1
    simp at h1
    exact h1
  have hnodup2 : (s.free_frames.dropLast ++ [fid]).Nodup := by
    rw [hdecomp]
    exact hwf.free_nodup
  have hnotin : fid ∉ s.free_frames.dropLast := by
    intro h
    rw [List.nodup_append] at hnodup2
    exact hnodup2.2.2 h (by simp)
  refine ⟨hwf.frames_len, hwf.frame_ids, hwf.page_iff, hwf.table_to_frame,
    hwf.frame_to_table, ?_, ?_, ?_, hflt, hnone, hpidnone, hnotin, ?_,
    hwf.hand_ok⟩
  · exact hwf.free_nodup.sublist (List.dropLast_sublist s.free_frames)
  · intro f hf
    exact hwf.free_sub f ((List.dropLast_sublist s.free_frames).subset hf)
  · intro i hi hne2 h
    have h2 := hwf.free_complete i hi h
    rw [← hdecomp] at h2
    rcases List.mem_append.mp h2 with h3 | h3
    · exact h3
    · simp at h3
      exact absurd h3 hne2
  · have hlen : s.free_frames.dropLast.length + 1 = s.free_frames.length := by
      have := congrArg List.length hdecomp
      simpa using this
    have := hwf.count_eq
    dsimp only
    omega

/-- Returning the obtained frame to the free list restores `WF` (the
read-failure path of `_load_page_from_disk`). -/
theorem readd_post (s : BufferManager) (v : Nat) (hev : EvictedOK s v) :
    WF { s with free_frames := s.free_frames ++ [v] } := by
  refine ⟨hev.frames_len, hev.frame_ids, hev.page_iff, hev.table_to_frame,
    hev.frame_to_table, ?_, ?_, ?_, ?_, hev.hand_ok⟩
  · simp [List.nodup_append, hev.free_nodup, hev.victim_not_free]
  · intro f hf
    rcases List.mem_append.mp hf with h | h
    · exact hev.free_sub f h
    · simp at h
      subst h
      exact ⟨hev.victim_lt, hev.victim_page⟩
  · intro i hi h
    by_cases hcase : i = v
    · subst hcase
      simp
    · exact List.mem_append.mpr (Or.inl (hev.free_complete1 i hi hcase h))
  · have := hev.count_eq1
    dsimp only
    simp only [List.length_append, List.length_singleton]
    omega

/-- Installing a freshly read page into the obtained frame restores `WF`
(the success path of `_load_page_from_disk`). -/
theorem install_post (s : BufferManager) (v : Nat) (hev : EvictedOK s v)
    (pid : Nat) (hmiss : s.page_table pid = none) (pg : Page) (la : Nat) :
    WF { s with
        frames := s.frames.set v
          { s.frames.getD v (Frame.mkInit 0) with
              page := some pg, page_id := some pid, is_dirty := false
              last_accessed := la, access_frequency := 1 }
        page_table := ptInsert s.page_table pid v } := by
  have hv := hev.victim_lt
  have hgetD := getD_eq_get s.frames v hv
  have hgid : ∀ j, ∀ hj : j < (s.frames.set v
      { s.frames.getD v (Frame.mkInit 0) with
          page := some pg, page_id := some pid, is_dirty := false
          last_accessed := la, access_frequency := 1 }).length,
      (s.frames.set v
        { s.frames.getD v (Frame.mkInit 0) with
            page := some pg, page_id := some pid, is_dirty := false
            last_accessed := la, access_frequency := 1 }).get ⟨j, hj⟩
      = if v = j then
          { s.frames.getD v (Frame.mkInit 0) with
              page := some pg, page_id := some pid, is_dirty := false
              last_accessed := la, access_frequency := 1 }
        else s.frames.get ⟨j, by simpa using hj⟩ := by
    intro j hj
    simp [List.get_eq_getElem, List.getElem_set]
  refine ⟨?_, ?_, ?_, ?_, ?_, ?_, ?_, ?_, ?_, ?_⟩
  · simpa using hev.frames_len
  · intro j hj
    rw [hgid j hj]
    by_cases hcase : v = j
    · subst hcase
      rw [if_pos rfl]
      have h1 := hev.frame_ids v hv
      simp only [hgetD]
      exact h1
    · rw [if_neg hcase]
      exact hev.frame_ids j (by simpa using hj)
  · intro j hj
    rw [hgid j hj]
    by_cases hcase : v = j
    · subst hcase
      simp
    · rw [if_neg hcase]
      exact hev.page_iff j (by simpa using hj)
  · intro p f h
    simp only [ptInsert] at h
    by_cases hp : p = pid
    · subst hp
      rw [if_pos rfl, Option.some.injEq] at h
      subst h
      refine ⟨by simpa using hv, ?_⟩
      rw [hgid v (by simpa using hv)]
      simp
    · rw [if_neg hp] at h
      obtain ⟨hf, hpidf⟩ := hev.table_to_frame p f h
      have hfne : v ≠ f := by
        intro heq
        subst heq
        rw [hev.victim_pid] at hpidf
        simp at hpidf
      refine ⟨by simpa using hf, ?_⟩
      rw [hgid f (by simpa using hf), if_neg hfne]
      exact hpidf
  · intro j hj p h
    rw [hgid j hj] at h
    by_cases hcase : v = j
    · subst hcase
      rw [if_pos rfl] at h
      simp only [Option.some.injEq] at h
      subst h
      simp [ptInsert]
    · rw [if_neg hcase] at h
      have hold := hev.frame_to_table j (by simpa using hj) p h
      simp only [ptInsert]
      split
      · next heq =>
        subst heq
        rw [hmiss] at hold
        simp at hold
      · exact hold
  · exact hev.free_nodup
  · intro f hf
    obtain ⟨hflt, hnone⟩ := hev.free_sub f hf
    have hfne : v ≠ f := by
      intro heq
      subst heq
      exact hev.victim_not_free hf
    refine ⟨by simpa using hflt, ?_⟩
    rw [hgid f (by simpa using hflt), if_neg hfne]
    exact hnone
  · intro j hj h
    rw [hgid j hj] at h
    by_cases hcase : v = j
    · subst hcase
      rw [if_pos rfl] at h
      simp at h
    · rw [if_neg hcase] at h
      exact hev.free_complete1 j (by simpa using hj) (fun he => hcase he.symm) h
  · have hcnt := List.countP_set (fun f => f.page.isSome) s.frames v
      { s.frames.getD v (Frame.mkInit 0) with
          page := some pg, page_id := some pid, is_dirty := false
          last_accessed := la, access_frequency := 1 } hv
    have hvnone : s.frames[v].page.isSome = false := by
      have h1 := hev.victim_page
      simp only [List.get_eq_getElem] at h1
      simp [h1]
    have hX : ({ s.frames.getD v (Frame.mkInit 0) with
        page := some pg, page_id := some pid, is_dirty := false
        last_accessed := la, access_frequency := 1 } : Frame).page.isSome
        = true := rfl
    simp only [hvnone, hX, Bool.false_eq_true, if_false, if_true,
      Nat.sub_zero] at hcnt
    dsimp only
    rw [hcnt]
    have := hev.count_eq1
    omega
  · exact hev.hand_ok

theorem lruFold_mem (l : List Frame) : ∀ (acc : Option Frame) (f : Frame),
    l.foldl lruStep acc = some f →
    acc = some f ∨ (f ∈ l ∧ f.page.isSome = true) := by
  induction l with
  | nil =>
    intro acc f h
    exact Or.inl h
  | cons a t ih =>
    intro acc f h
    simp only [List.foldl_cons] at h
    rcases ih (lruStep acc a) f h with h2 | h2
    · unfold lruStep at h2
      by_cases ha : a.page.isSome = true
      · rw [if_pos ha] at h2
        cases acc with
        | none =>
          simp only [Option.some.injEq] at h2
          subst h2
          exact Or.inr ⟨List.mem_cons_self a t, ha⟩
        | some b =>
          dsimp only at h2
          by_cases hlt : a.last_accessed < b.last_accessed
          · rw [if_pos hlt] at h2
            simp only [Option.some.injEq] at h2
            subst h2
            exact Or.inr ⟨List.mem_cons_self a t, ha⟩
          · rw [if_neg hlt] at h2
            exact Or.inl h2
      · rw [if_neg ha] at h2
        exact Or.inl h2
    · exact Or.inr ⟨List.mem_cons_of_mem a h2.1, h2.2⟩

theorem clock_loop_post (fuel : Nat) :
    ∀ (s : BufferManager) (dm : DiskManager) (dW : Nat),
    WF s → s.free_frames = [] → 0 < s.pool_size →
    ((s.evict_clock_loop dm dW fuel).victim = none →
      WF (s.evict_clock_loop dm dW fuel).bm ∧
      (s.evict_clock_loop dm dW fuel).bm.free_frames = [] ∧
      (∀ p f, (s.evict_clock_loop dm dW fuel).bm.page_table p = some f →
        s.page_table p = some f)) ∧
    (∀ v, (s.evict_clock_loop dm dW fuel).victim = some v →
      EvictedOK (s.evict_clock_loop dm dW fuel).bm v ∧
      (s.evict_clock_loop dm dW fuel).bm.free_frames = [] ∧
      (∀ p f, (s.evict_clock_loop dm dW fuel).bm.page_table p = some f →
        s.page_table p = some f)) := by
  induction fuel with
  | zero =>
    intro s dm dW hwf hfree hpos
    constructor
    · intro _
      exact ⟨hwf, hfree, fun p f h => h⟩
    · intro v hv
      simp [BufferManager.evict_clock_loop] at hv
  | succ fuel ih =>
    intro s dm dW hwf hfree hpos
    have hh : s.clock_hand < s.frames.length := by
      rw [hwf.frames_len]
      rcases hwf.hand_ok with h0 | h1
      · omega
      · exact h1
    have hgd := getD_eq_get s.frames s.clock_hand hh
    simp only [BufferManager.evict_clock_loop, hgd]
    by_cases hfree2 : (s.frames.get ⟨s.clock_hand, hh⟩).is_free = true
    · exfalso
      have hnone : (s.frames.get ⟨s.clock_hand, hh⟩).page = none := by
        unfold Frame.is_free at hfree2
        exact Option.isNone_iff_eq_none.mp hfree2
      have hmem := hwf.free_complete s.clock_hand hh hnone
      rw [hfree] at hmem
      simp at hmem
    · rw [if_neg hfree2]
      have hocc : (s.frames.get ⟨s.clock_hand, hh⟩).page.isSome = true := by
        unfold Frame.is_free at hfree2
        cases hc : (s.frames.get ⟨s.clock_hand, hh⟩).page with
        | none => rw [hc] at hfree2; simp at hfree2
        | some p2 => simp
      by_cases hbit : (s.frames.get ⟨s.clock_hand, hh⟩).clock_bit = true
      · rw [if_pos hbit]
        have hwf2 : WF { s with
            clock_hand := (s.clock_hand + 1) % s.pool_size
            frames := s.frames.set s.clock_hand
              { s.frames.get ⟨s.clock_hand, hh⟩ with clock_bit := false } } := by
          have h2 := wf_update_meta s s.clock_hand hh
            { s.frames.get ⟨s.clock_hand, hh⟩ with clock_bit := false } hwf
            rfl rfl rfl ((s.clock_hand + 1) % s.pool_size) s.access_counter
            s.hits s.misses s.evictions (Or.inr (Nat.mod_lt _ hpos))
          exact h2
        exact ih _ dm dW hwf2 hfree hpos
      · rw [if_neg hbit]
        have hfid : (s.frames.get ⟨s.clock_hand, hh⟩).frame_id = s.clock_hand :=
          hwf.frame_ids s.clock_hand hh
        rw [hfid]
        have hwf1 : WF { s with
            clock_hand := (s.clock_hand + 1) % s.pool_size } :=
          ⟨hwf.frames_len, hwf.frame_ids, hwf.page_iff, hwf.table_to_frame,
            hwf.frame_to_table, hwf.free_nodup, hwf.free_sub,
            hwf.free_complete, hwf.count_eq, Or.inr (Nat.mod_lt _ hpos)⟩
        obtain ⟨hev, hfr, _, _, _, hmono⟩ := wb_post
          { s with clock_hand := (s.clock_hand + 1) % s.pool_size } dm
          s.clock_hand dW hwf1 hh hocc
        constructor
        · intro habs
          simp at habs
        · intro v hv
          simp only [Option.some.injEq] at hv
          subst hv
          refine ⟨hev, ?_, hmono⟩
          rw [hfr]
          exact hfree

/-- Shape of the post-state of every eviction-policy call on a well-formed
pool whose free list is empty: failure leaves a well-formed pool, success
leaves the `EvictedOK` intermediate state; the free list stays empty and the
page table only loses entries. -/
theorem evict_page_post (s : BufferManager) (dm : DiskManager) (dW : Nat)
    (hwf : WF s) (hfree : s.free_frames = []) :
    ((s.evict_page dm dW).victim = none →
      WF (s.evict_page dm dW).bm ∧
      (s.evict_page dm dW).bm.free_frames = [] ∧
      (∀ p f, (s.evict_page dm dW).bm.page_table p = some f →
        s.page_table p = some f)) ∧
    (∀ v, (s.evict_page dm dW).victim = some v →
      EvictedOK (s.evict_page dm dW).bm v ∧
      (s.evict_page dm dW).bm.free_frames = [] ∧
      (∀ p f, (s.evict_page dm dW).bm.page_table p = some f →
        s.page_table p = some f)) := by
  cases hpol : s.policy with
  | lru =>
    simp only [BufferManager.evict_page, hpol, BufferManager.evict_lru]
    constructor
    · intro _
      exact ⟨hwf, hfree, fun p f h => h⟩
    · intro v hv
      simp at hv
  | clock =>
    simp only [BufferManager.evict_page, hpol, BufferManager.evict_clock]
    rcases Nat.eq_zero_or_pos s.pool_size with hn | hpos
    · rw [hn]
      simp only [BufferManager.evict_clock_loop]
      constructor
      · intro _
        exact ⟨hwf, hfree, fun p f h => h⟩
      · intro v hv
        simp at hv
    · exact clock_loop_post s.pool_size s dm dW hwf hfree hpos
  | lruModelled =>
    simp only [BufferManager.evict_page, hpol, BufferManager.evict_lru_modelled]
    cases hfold : s.frames.foldl lruStep none with
    | none =>
      simp only
      constructor
      · intro _
        exact ⟨hwf, hfree, fun p f h => h⟩
      · intro v hv
        simp at hv
    | some f =>
      rcases lruFold_mem s.frames none f hfold with habs | ⟨hmem, hoccf⟩
      · exact absurd habs (by simp)
      · obtain ⟨⟨i, hi⟩, hget⟩ := List.mem_iff_get.mp hmem
        have hfid : f.frame_id = i := by
          rw [← hget]
          exact hwf.frame_ids i hi
        have hocc : (s.frames.get ⟨i, hi⟩).page.isSome = true := by
          rw [hget]
          exact hoccf
        simp only [hfid]
        obtain ⟨hev, hfr, _, _, _, hmono⟩ := wb_post s dm i dW hwf hi hocc
        constructor
        · intro habs
          simp at habs
        · intro v hv
          simp only [Option.some.injEq] at hv
          subst hv
          refine ⟨hev, ?_, hmono⟩
          rw [hfr]
          exact hfree
  | fifo =>
    simp only [BufferManager.evict_page, hpol, BufferManager.evict_fifo]
    cases hfind : s.frames.find? (fun f => f.page.isSome) with
    | none =>
      simp only
      constructor
      · intro _
        exact ⟨hwf, hfree, fun p f h => h⟩
      · intro v hv
        simp at hv
    | some f =>
      obtain ⟨i, hi, hget, hfirst⟩ := find_first_occupied_spec s.frames f hfind
      have hfid : f.frame_id = i := by
        rw [← hget]
        exact hwf.frame_ids i hi
      have hocc : (s.frames.get ⟨i, hi⟩).page.isSome = true := by
        rw [hget]
        have h2 := List.find?_some hfind
        simpa using h2
      simp only [hfid]
      obtain ⟨hev, hfr, _, _, _, hmono⟩ := wb_post s dm i dW hwf hi hocc
      constructor
      · intro habs
        simp at habs
      · intro v hv
        simp only [Option.some.injEq] at hv
        subst hv
        refine ⟨hev, ?_, hmono⟩
        rw [hfr]
        exact hfree

/-- `_load_page_from_disk` preserves the invariant on a miss. -/
theorem wf_load (s : BufferManager) (dm : DiskManager) (pid dR dW : Nat)
    (hwf : WF s) (hmiss : s.page_table pid = none) :
    WF (s.load_page_from_disk dm pid dR dW).bm := by
  simp only [BufferManager.load_page_from_disk, BufferManager.get_free_frame]
  cases hlast : s.free_frames.getLast? with
  | some fid =>
    simp only
    have hev := free_pop_post s hwf fid hlast
    cases hrd : (dm.read_page pid dR).2 with
    | none =>
      simp only
      rw [if_neg hev.victim_not_free]
      exact readd_post _ fid hev
    | some pg =>
      simp only
      exact install_post _ fid hev pid hmiss pg _
  | none =>
    simp only
    obtain ⟨hvnone, hvsome⟩ := evict_page_post s dm dW hwf (by
      cases hfr : s.free_frames with
      | nil => rfl
      | cons a t => rw [hfr] at hlast; simp at hlast)
    cases hvic : (s.evict_page dm dW).victim with
    | none =>
      simp only
      exact (hvnone hvic).1
    | some fid =>
      simp only
      obtain ⟨hev, hfr2, hmono⟩ := hvsome fid hvic
      have hmiss2 : (s.evict_page dm dW).bm.page_table pid = none := by
        cases h2 : (s.evict_page dm dW).bm.page_table pid with
        | none => rfl
        | some f2 =>
          rw [hmono pid f2 h2] at hmiss
          exact absurd hmiss (by simp)
      cases hrd : ((s.evict_page dm dW).dm.read_page pid dR).2 with
      | none =>
        simp only
        rw [if_neg hev.victim_not_free]
        exact readd_post _ fid hev
      | some pg =>
        simp only
        exact install_post _ fid hev pid hmiss2 pg _

/-- `get_page` preserves the invariant. -/
theorem wf_get_page (s : BufferManager) (dm : DiskManager) (pid dR dW : Nat)
    (hwf : WF s) : WF (s.get_page dm pid dR dW).bm := by
  simp only [BufferManager.get_page]
  cases hpt : s.page_table pid with
  | some fid =>
    simp only
    obtain ⟨hf, hpid⟩ := hwf.table_to_frame pid fid hpt
    have hgd := getD_eq_get s.frames fid hf
    have h2 := wf_update_meta s fid hf
      { s.frames.getD fid (Frame.mkInit 0) with
          last_accessed := s.access_counter + 1
          access_frequency := (s.frames.getD fid (Frame.mkInit 0)).access_frequency + 1
          clock_bit := true } hwf
      (by rw [hgd]) (by rw [hgd]) (by rw [hgd])
      s.clock_hand (s.access_counter + 1) (s.hits + 1) s.misses s.evictions
      hwf.hand_ok
    exact h2
  | none =>
    simp only
    have hwf2 : WF { s with
        access_counter := s.access_counter + 1
        misses := s.misses + 1 } :=
      ⟨hwf.frames_len, hwf.frame_ids, hwf.page_iff, hwf.table_to_frame,
        hwf.frame_to_table, hwf.free_nodup, hwf.free_sub, hwf.free_complete,
        hwf.count_eq, hwf.hand_ok⟩
    exact wf_load _ dm pid dR dW hwf2 hpt

/-- Any sequence of `get_page` calls preserves the invariant. -/
theorem wf_run (reqs : List (Nat × Nat × Nat)) :
    ∀ (s : BufferManager) (dm : DiskManager), WF s → WF ((s.run dm reqs).1) := by
  induction reqs with
  | nil =>
    intro s dm hwf
    exact hwf
  | cons r rest ih =>
    intro s dm hwf
    obtain ⟨pid, dR, dW⟩ := r
    exact ih _ _ (wf_get_page s dm pid dR dW hwf)

theorem evict_clock_loop_pool (fuel : Nat) :
    ∀ (s : BufferManager) (dm : DiskManager) (dW : Nat),
    (s.evict_clock_loop dm dW fuel).bm.pool_size = s.pool_size := by
  induction fuel with
  | zero =>
    intro s dm dW
    rfl
  | succ fuel ih =>
    intro s dm dW
    simp only [BufferManager.evict_clock_loop]
    split
    · rfl
    · split
      · exact ih _ _ _
      · rfl

theorem evict_page_pool (s : BufferManager) (dm : DiskManager) (dW : Nat) :
    (s.evict_page dm dW).bm.pool_size = s.pool_size := by
  simp only [BufferManager.evict_page]
  split
  · rfl
  · simp only [BufferManager.evict_clock]
    exact evict_clock_loop_pool _ _ _ _
  · simp only [BufferManager.evict_lru_modelled]
    split <;> rfl
  · simp only [BufferManager.evict_fifo]
    split <;> rfl

theorem load_pool (s : BufferManager) (dm : DiskManager) (pid dR dW : Nat) :
    (s.load_page_from_disk dm pid dR dW).bm.pool_size = s.pool_size := by
  simp only [BufferManager.load_page_from_disk, BufferManager.get_free_frame]
  cases hlast : s.free_frames.getLast? with
  | some fid =>
    simp only
    cases hrd : (dm.read_page pid dR).2 with
    | none =>
      simp only
      split <;> rfl
    | some pg => rfl
  | none =>
    simp only
    cases hvic : (s.evict_page dm dW).victim with
    | none => exact evict_page_pool s dm dW
    | some fid =>
      cases hrd : ((s.evict_page dm dW).dm.read_page pid dR).2 with
      | none =>
        simp only
        split <;> exact evict_page_pool s dm dW
      | some pg => exact evict_page_pool s dm dW

theorem get_page_pool (s : BufferManager) (dm : DiskManager) (pid dR dW : Nat) :
    (s.get_page dm pid dR dW).bm.pool_size = s.pool_size := by
  simp only [BufferManager.get_page]
  cases hpt : s.page_table pid with
  | some fid => rfl
  | none => exact load_pool _ dm pid dR dW

theorem run_pool (reqs : List (Nat × Nat × Nat)) :
    ∀ (s : BufferManager) (dm : DiskManager),
    ((s.run dm reqs).1).pool_size = s.pool_size := by
  induction reqs with
  | nil =>
    intro s dm
    rfl
  | cons r rest ih =>
    intro s dm
    obtain ⟨pid, dR, dW⟩ := r
    exact (ih _ _).trans (get_page_pool s dm pid dR dW)

/-- **C2** (confirmed): after every finite sequence of `get_page` calls on a
fresh pool of `pool_size` frames (any policy, any backing-file size, any I/O
durations), the page table is injective, an entry `page_id -> frame_id`
exists iff that frame currently holds that page, and the number of free
frames plus the number of occupied frames equals `pool_size`. -/
theorem bufferManager_invariants_c2 (n : Nat) (pol : Policy) (sz : Nat)
    (reqs : List (Nat × Nat × Nat)) (hn : 0 < n) :
    (∀ p q f,
      ((BufferManager.mkInit n pol).run (DiskManager.init sz) reqs).1.page_table p
        = some f →
      ((BufferManager.mkInit n pol).run (DiskManager.init sz) reqs).1.page_table q
        = some f → p = q) ∧
    (∀ p f,
      ((BufferManager.mkInit n pol).run (DiskManager.init sz) reqs).1.page_table p
        = some f ↔
      ∃ hf : f < ((BufferManager.mkInit n pol).run (DiskManager.init sz) reqs).1.frames.length,
        (((BufferManager.mkInit n pol).run (DiskManager.init sz) reqs).1.frames.get
          ⟨f, hf⟩).page_id = some p ∧
        (((BufferManager.mkInit n pol).run (DiskManager.init sz) reqs).1.frames.get
          ⟨f, hf⟩).page.isSome = true) ∧
    ((BufferManager.mkInit n pol).run (DiskManager.init sz) reqs).1.free_frames.length
      + ((BufferManager.mkInit n pol).run (DiskManager.init sz) reqs).1.frames.countP
          (fun fr => fr.page.isSome)
      = n := by
  have hwf : WF ((BufferManager.mkInit n pol).run (DiskManager.init sz) reqs).1 :=
    wf_run reqs _ _ (wf_mkInit n pol)
  have hpool : ((BufferManager.mkInit n pol).run (DiskManager.init sz) reqs).1.pool_size
      = n := run_pool reqs (BufferManager.mkInit n pol) (DiskManager.init sz)
  refine ⟨?_, ?_, ?_⟩
  · intro p q f hp hq
    obtain ⟨hf, hp2⟩ := hwf.table_to_frame p f hp
    obtain ⟨hf2, hq2⟩ := hwf.table_to_frame q f hq
    rw [hp2] at hq2
    exact (Option.some.injEq _ _ ▸ hq2).symm ▸ rfl
  · intro p f
    constructor
    · intro h
      obtain ⟨hf, h2⟩ := hwf.table_to_frame p f h
      refine ⟨hf, h2, ?_⟩
      apply (hwf.page_iff f hf).mpr
      rw [h2]
      rfl
    · rintro ⟨hf, h2, _⟩
      exact hwf.frame_to_table f hf p h2
  · have h4 := hwf.count_eq
    rw [hpool] at h4
    exact h4

theorem bufferManager_invariants_c2_witness :
    0 < 2 ∧
    ((∀ p q f,
      ((BufferManager.mkInit 2 .clock).run (DiskManager.init (3 * PAGE_SIZE))
        [(0, 1, 1), (1, 1, 1), (2, 1, 1)]).1.page_table p = some f →
      ((BufferManager.mkInit 2 .clock).run (DiskManager.init (3 * PAGE_SIZE))
        [(0, 1, 1), (1, 1, 1), (2, 1, 1)]).1.page_table q = some f → p = q) ∧
    (∀ p f,
      ((BufferManager.mkInit 2 .clock).run (DiskManager.init (3 * PAGE_SIZE))
        [(0, 1, 1), (1, 1, 1), (2, 1, 1)]).1.page_table p = some f ↔
      ∃ hf : f < ((BufferManager.mkInit 2 .clock).run (DiskManager.init (3 * PAGE_SIZE))
        [(0, 1, 1), (1, 1, 1), (2, 1, 1)]).1.frames.length,
        (((BufferManager.mkInit 2 .clock).run (DiskManager.init (3 * PAGE_SIZE))
          [(0, 1, 1), (1, 1, 1), (2, 1, 1)]).1.frames.get ⟨f, hf⟩).page_id = some p ∧
        (((BufferManager.mkInit 2 .clock).run (DiskManager.init (3 * PAGE_SIZE))
          [(0, 1, 1), (1, 1, 1), (2, 1, 1)]).1.frames.get ⟨f, hf⟩).page.isSome = true) ∧
    ((BufferManager.mkInit 2 .clock).run (DiskManager.init (3 * PAGE_SIZE))
      [(0, 1, 1), (1, 1, 1), (2, 1, 1)]).1.free_frames.length
      + ((BufferManager.mkInit 2 .clock).run (DiskManager.init (3 * PAGE_SIZE))
          [(0, 1, 1), (1, 1, 1), (2, 1, 1)]).1.frames.countP
          (fun fr => fr.page.isSome)
      = 2) :=
  ⟨by decide,
    bufferManager_invariants_c2 2 .clock (3 * PAGE_SIZE)
      [(0, 1, 1), (1, 1, 1), (2, 1, 1)] (by decide)⟩

theorem wb_dm_clean (s : BufferManager) (dm : DiskManager) (fid dW : Nat)
    (hclean : AllClean s) :
    (s.write_back_and_clear_frame dm fid dW).dm = dm := by
  have hdirty : (s.frames.getD fid (Frame.mkInit 0)).is_dirty = false := by
    rcases Nat.lt_or_ge fid s.frames.length with hlt | hge
    · rw [getD_eq_get s.frames fid hlt]
      exact hclean _ (List.get_mem s.frames fid hlt)
    · rw [List.getD_eq_default]
      · rfl
      · exact hge
  simp only [BufferManager.write_back_and_clear_frame]
  split
  · rw [hdirty]
    simp
  · rfl

theorem evict_clock_loop_dm_clean (fuel : Nat) :
    ∀ (s : BufferManager) (dm : DiskManager) (dW : Nat), AllClean s →
    (s.evict_clock_loop dm dW fuel).dm = dm := by
  induction fuel with
  | zero =>
    intro s dm dW hclean
    rfl
  | succ fuel ih =>
    intro s dm dW hclean
    simp only [BufferManager.evict_clock_loop]
    split
    · rfl
    · split
      · apply ih
        intro f hf
        rcases List.mem_or_eq_of_mem_set hf with h2 | h2
        · exact hclean f h2
        · subst h2
          rw [show ∀ (x : Frame), ({ x with clock_bit := false } : Frame).is_dirty
            = x.is_dirty from fun x => rfl]
          rcases Nat.lt_or_ge s.clock_hand s.frames.length with hlt | hge
          · rw [getD_eq_get s.frames s.clock_hand hlt]
            exact hclean _ (List.get_mem s.frames s.clock_hand hlt)
          · rw [List.getD_eq_default]
            · rfl
            · exact hge
      · exact wb_dm_clean _ dm _ dW hclean

theorem evict_page_dm_clean (s : BufferManager) (dm : DiskManager) (dW : Nat)
    (hclean : AllClean s) : (s.evict_page dm dW).dm = dm := by
  simp only [BufferManager.evict_page]
  split
  · rfl
  · simp only [BufferManager.evict_clock]
    exact evict_clock_loop_dm_clean _ _ _ _ hclean
  · simp only [BufferManager.evict_lru_modelled]
    split
    · exact wb_dm_clean _ _ _ _ hclean
    · rfl
  · simp only [BufferManager.evict_fifo]
    split
    · exact wb_dm_clean _ _ _ _ hclean
    · rfl

theorem load_read_failure (s : BufferManager) (dm : DiskManager)
    (pid dR dW : Nat) (hwf : WF s) (hclean : AllClean s)
    (hmiss : s.page_table pid = none)
    (hfail : dm.fileSize < (pid + 1) * PAGE_SIZE) :
    (s.load_page_from_disk dm pid dR dW).page = none ∧
    (s.load_page_from_disk dm pid dR dW).bm.page_table pid = none := by
  have hrdfail : dm.read_page pid dR = (dm, none) := by
    simp only [DiskManager.read_page]
    rw [if_neg (by omega)]
  simp only [BufferManager.load_page_from_disk, BufferManager.get_free_frame]
  cases hlast : s.free_frames.getLast? with
  | some fid =>
    simp only
    rw [hrdfail]
    simp only
    split <;> exact ⟨by trivial, hmiss⟩
  | none =>
    simp only
    have hfree : s.free_frames = [] := by
      cases hfr : s.free_frames with
      | nil => rfl
      | cons a t => rw [hfr] at hlast; simp at hlast
    obtain ⟨hvnone, hvsome⟩ := evict_page_post s dm dW hwf hfree
    cases hvic : (s.evict_page dm dW).victim with
    | none =>
      simp only
      refine ⟨by trivial, ?_⟩
      obtain ⟨_, _, hmono⟩ := hvnone hvic
      cases h2 : (s.evict_page dm dW).bm.page_table pid with
      | none => rfl
      | some f2 =>
        rw [hmono pid f2 h2] at hmiss
        exact absurd hmiss (by simp)
    | some fid =>
      simp only
      obtain ⟨hev, hfr2, hmono⟩ := hvsome fid hvic
      rw [evict_page_dm_clean s dm dW hclean, hrdfail]
      simp only
      have hpt2 : (s.evict_page dm dW).bm.page_table pid = none := by
        cases h2 : (s.evict_page dm dW).bm.page_table pid with
        | none => rfl
        | some f2 =>
          rw [hmono pid f2 h2] at hmiss
          exact absurd hmiss (by simp)
      split <;> exact ⟨by trivial, hpt2⟩

/-- **C6** (confirmed): on a `get_page` miss whose disk read fails (requested
page beyond the end of the backing file; the pool clean, as it is in every
state reachable by `get_page` calls), the call returns no page, the page
table gains no entry for the requested page id, and every unoccupied frame —
including the frame obtained for the load — is back on the free list. -/
theorem get_page_read_failure_c6 (s : BufferManager) (dm : DiskManager)
    (pid dR dW : Nat) (hwf : WF s) (hclean : AllClean s)
    (hmiss : s.page_table pid = none)
    (hfail : dm.fileSize < (pid + 1) * PAGE_SIZE) :
    (s.get_page dm pid dR dW).page = none ∧
    (s.get_page dm pid dR dW).bm.page_table pid = none ∧
    (∀ i, ∀ hi : i < (s.get_page dm pid dR dW).bm.frames.length,
      ((s.get_page dm pid dR dW).bm.frames.get ⟨i, hi⟩).page = none →
      i ∈ (s.get_page dm pid dR dW).bm.free_frames) := by
  simp only [BufferManager.get_page]
  cases hpt : s.page_table pid with
  | some fid =>
    rw [hmiss] at hpt
    exact absurd hpt (by simp)
  | none =>
    simp only
    have hwf1 : WF { s with
        access_counter := s.access_counter + 1
        misses := s.misses + 1 } :=
      ⟨hwf.frames_len, hwf.frame_ids, hwf.page_iff, hwf.table_to_frame,
        hwf.frame_to_table, hwf.free_nodup, hwf.free_sub, hwf.free_complete,
        hwf.count_eq, hwf.hand_ok⟩
    have hclean1 : AllClean { s with
        access_counter := s.access_counter + 1
        misses := s.misses + 1 } := hclean
    obtain ⟨h1, h2⟩ := load_read_failure _ dm pid dR dW hwf1 hclean1 hmiss hfail
    exact ⟨h1, h2, (wf_load _ dm pid dR dW hwf1 hmiss).free_complete⟩

theorem get_page_read_failure_c6_witness :
    (AllClean c6State ∧ c6State.page_table 5 = none ∧
      c6Disk.fileSize < (5 + 1) * PAGE_SIZE) ∧
    ((c6State.get_page c6Disk 5 0 0).page = none ∧
      (c6State.get_page c6Disk 5 0 0).bm.page_table 5 = none ∧
      (∀ i, ∀ hi : i < (c6State.get_page c6Disk 5 0 0).bm.frames.length,
        ((c6State.get_page c6Disk 5 0 0).bm.frames.get ⟨i, hi⟩).page = none →
        i ∈ (c6State.get_page c6Disk 5 0 0).bm.free_frames)) :=
  ⟨⟨by decide, by decide, by decide⟩,
    get_page_read_failure_c6 c6State c6Disk 5 0 0
      (wf_run [(0, 0, 0)] (BufferManager.mkInit 1 .fifo)
        (DiskManager.init PAGE_SIZE) (wf_mkInit 1 .fifo))
      (by decide) (by decide) (by decide)⟩

theorem load_shape (s : BufferManager) (dm : DiskManager) (pid dR dW : Nat) :
    (s.load_page_from_disk dm pid dR dW).reads = 1 ∨
    ((s.evict_page dm dW).victim = none ∧
      (s.load_page_from_disk dm pid dR dW).bm = (s.evict_page dm dW).bm) := by
  simp only [BufferManager.load_page_from_disk, BufferManager.get_free_frame]
  cases hlast : s.free_frames.getLast? with
  | some fid =>
    simp only
    cases hrd : (dm.read_page pid dR).2 with
    | none => exact Or.inl rfl
    | some pg => exact Or.inl rfl
  | none =>
    simp only
    cases hvic : (s.evict_page dm dW).victim with
    | none => exact Or.inr ⟨rfl, rfl⟩
    | some fid =>
      simp only
      cases hrd : ((s.evict_page dm dW).dm.read_page pid dR).2 with
      | none => exact Or.inl rfl
      | some pg => exact Or.inl rfl

theorem evict_fifo_none_id (s : BufferManager) (dm : DiskManager) (dW : Nat)
    (h : (s.evict_fifo dm dW).victim = none) : (s.evict_fifo dm dW).bm = s := by
  simp only [BufferManager.evict_fifo] at h ⊢
  cases hfind : s.frames.find? (fun f => f.page.isSome) with
  | none => rfl
  | some f =>
    rw [hfind] at h
    simp at h

theorem evict_lruM_none_id (s : BufferManager) (dm : DiskManager) (dW : Nat)
    (h : (s.evict_lru_modelled dm dW).victim = none) :
    (s.evict_lru_modelled dm dW).bm = s := by
  simp only [BufferManager.evict_lru_modelled] at h ⊢
  cases hfold : s.frames.foldl lruStep none with
  | none => rfl
  | some f =>
    rw [hfold] at h
    simp at h

/-- **C7** (amended): on a `get_page` hit, the frame's `last_accessed` is set
to the freshly incremented global counter, its reference bit is set, the hit
counter is incremented, the cached page is returned, and no disk read or
write happens; and a `get_page` call that performs no disk I/O yet changes
the frame array in any way is either such a hit or a miss under the CLOCK
policy (whose failed eviction scan clears reference bits — the exception the
counterexample exhibits). -/
theorem get_page_hit_path_c7 (s : BufferManager) (dm : DiskManager)
    (pid dR dW : Nat) (hwf : WF s) :
    (∀ fid, s.page_table pid = some fid →
      ((s.get_page dm pid dR dW).bm.frames.getD fid (Frame.mkInit 0)).last_accessed
        = s.access_counter + 1 ∧
      ((s.get_page dm pid dR dW).bm.frames.getD fid (Frame.mkInit 0)).clock_bit
        = true ∧
      (s.get_page dm pid dR dW).bm.hits = s.hits + 1 ∧
      (s.get_page dm pid dR dW).page = (s.frames.getD fid (Frame.mkInit 0)).page ∧
      (s.get_page dm pid dR dW).reads = 0 ∧
      (s.get_page dm pid dR dW).writes = 0 ∧
      (s.get_page dm pid dR dW).dm = dm) ∧
    ((s.get_page dm pid dR dW).reads = 0 →
      (s.get_page dm pid dR dW).writes = 0 →
      (s.get_page dm pid dR dW).bm.frames ≠ s.frames →
      (s.page_table pid).isSome = true ∨ s.policy = .clock) := by
  constructor
  · intro fid hpt
    obtain ⟨hf, _⟩ := hwf.table_to_frame pid fid hpt
    simp only [BufferManager.get_page]
    rw [hpt]
    simp only
    have hgds : ∀ (f1 : Frame),
        ((s.frames.set fid f1).getD fid (Frame.mkInit 0)) = f1 := by
      intro f1
      rw [getD_eq_get _ fid (by simpa using hf)]
      simp [List.get_eq_getElem, List.getElem_set]
    rw [hgds]
    simp
  · intro hreads hwrites hchanged
    by_cases hpt : (s.page_table pid).isSome = true
    · exact Or.inl hpt
    · have hptn : s.page_table pid = none :=
        Option.not_isSome_iff_eq_none.mp (by simpa using hpt)
      have hgp : s.get_page dm pid dR dW
          = ({ s with access_counter := s.access_counter + 1, misses := s.misses + 1 } : BufferManager).load_page_from_disk dm pid dR dW := by
        simp only [BufferManager.get_page]
        rw [hptn]
      rw [hgp] at hreads hwrites hchanged
      rcases load_shape _ dm pid dR dW with h1 | ⟨hvic, hbmeq⟩
      · rw [h1] at hreads
        exact absurd hreads (by simp)
      · rw [hbmeq] at hchanged
        cases hpol : s.policy with
        | clock => exact Or.inr rfl
        | lru =>
          exfalso
          simp only [BufferManager.evict_page, hpol,
            BufferManager.evict_lru] at hchanged
          exact hchanged rfl
        | fifo =>
          exfalso
          simp only [BufferManager.evict_page, hpol] at hvic hchanged
          rw [evict_fifo_none_id _ dm dW hvic] at hchanged
          exact hchanged rfl
        | lruModelled =>
          exfalso
          simp only [BufferManager.evict_page, hpol] at hvic hchanged
          rw [evict_lruM_none_id _ dm dW hvic] at hchanged
          exact hchanged rfl

/-- **C7** (counterexample): the claim says the hit path is the *only*
operation that mutates recency metadata without touching disk.  But a miss
under CLOCK with a full pool and all reference bits set performs no disk read
or write (the eviction scan fails before any read is attempted) yet clears
both frames' reference bits — recency metadata changes on a non-hit path with
no disk I/O. -/
theorem recency_without_disk_c7_cex :
    let dm0 := DiskManager.init (12 * PAGE_SIZE)
    let p := (BufferManager.mkInit 2 .clock).run dm0
      [(10, 0, 0), (11, 0, 0), (10, 0, 0), (11, 0, 0)]
    (p.1.get_page p.2 12 0 0).reads = 0 ∧
    (p.1.get_page p.2 12 0 0).writes = 0 ∧
    p.1.page_table 12 = none ∧
    p.1.frames.map Frame.clock_bit = [true, true] ∧
    (p.1.get_page p.2 12 0 0).bm.frames.map Frame.clock_bit = [false, false] ∧
    (p.1.get_page p.2 12 0 0).bm.frames ≠ p.1.frames ∧
    (p.1.get_page p.2 12 0 0).page = none := by
  decide

theorem get_page_hit_path_c7_witness :
    (∀ fid, c7State.page_table 10 = some fid →
      ((c7State.get_page c7Disk 10 0 0).bm.frames.getD fid
          (Frame.mkInit 0)).last_accessed = c7State.access_counter + 1 ∧
      ((c7State.get_page c7Disk 10 0 0).bm.frames.getD fid
          (Frame.mkInit 0)).clock_bit = true ∧
      (c7State.get_page c7Disk 10 0 0).bm.hits = c7State.hits + 1 ∧
      (c7State.get_page c7Disk 10 0 0).page
        = (c7State.frames.getD fid (Frame.mkInit 0)).page ∧
      (c7State.get_page c7Disk 10 0 0).reads = 0 ∧
      (c7State.get_page c7Disk 10 0 0).writes = 0 ∧
      (c7State.get_page c7Disk 10 0 0).dm = c7Disk) ∧
    ((c7State.get_page c7Disk 10 0 0).reads = 0 →
      (c7State.get_page c7Disk 10 0 0).writes = 0 →
      (c7State.get_page c7Disk 10 0 0).bm.frames ≠ c7State.frames →
      (c7State.page_table 10).isSome = true ∨ c7State.policy = .clock) :=
  get_page_hit_path_c7 c7State c7Disk 10 0 0
    (wf_run [(10, 0, 0), (11, 0, 0)] (BufferManager.mkInit 2 .clock)
      (DiskManager.init (12 * PAGE_SIZE)) (wf_mkInit 2 .clock))

/-- **C5** (confirmed against the spec-modelled LRU): with pool_size = 1 and
the LRU policy (as completed from spec §4.4: evict the occupied frame with
minimum last_access_counter — the `_evict_lru` body in the source is a student
TODO stub), over a store holding pages 0, 1, 2, the sequence
get_page(0), get_page(1), get_page(0), get_page(2) is all misses, and page 0
is indeed evicted from the page table before its second request. -/
theorem lru_pool1_all_miss_c5 :
    BufferManager.traceHits (BufferManager.mkInit 1 .lruModelled)
      (DiskManager.init (3 * PAGE_SIZE)) [(0, 0, 0), (1, 0, 0), (0, 0, 0), (2, 0, 0)]
      = [false, false, false, false] ∧
    ((BufferManager.mkInit 1 .lruModelled).run (DiskManager.init (3 * PAGE_SIZE))
      [(0, 0, 0), (1, 0, 0)]).1.page_table 0 = none := by
  decide

/-! ## Tenant-aware buffer manager (`UserAwareBufferManager` in
step05_bufferLLMemory.py)

Only the victim-selection logic is modelled here: the selection loop body of
`_evict_user_aware_lru` is a student placeholder in the source (the loop
never assigns `best_victim_frame`, so the method always fails), and the claim
is about which victim the completed policy selects.  Tenant ids are Nat;
`datetime`-valued `last_accessed` is modelled as an abstract Nat instant; the
per-tenant `is_active` flags (recomputed from timestamps by
`_update_active_status`) are modelled as the resulting Bool per registered
tenant. -/

theorem evLex_irrefl (a : Nat × Nat × Nat) : ¬ evLexLt a a := by
  unfold evLexLt
  omega

theorem evLex_le_trans (a b c : Nat × Nat × Nat) (h1 : ¬ evLexLt a b)
    (h2 : ¬ evLexLt b c) : ¬ evLexLt a c := by
  unfold evLexLt at h1 h2 ⊢
  omega

theorem evLex_le_lt (a b v : Nat × Nat × Nat) (h1 : ¬ evLexLt a v)
    (h2 : evLexLt a b) : ¬ evLexLt b v := by
  unfold evLexLt at h1 h2 ⊢
  omega

theorem uaFold_spec (sessions : Nat → Option Bool) (l : List ExtFrame) :
    ∀ (acc : Option ExtFrame) (v : ExtFrame),
    l.foldl (uaStep sessions) acc = some v →
    (acc = some v ∨ (v ∈ l ∧ v.page.isSome = true)) ∧
    (∀ b, acc = some b → ¬ evLexLt (uaKey sessions b) (uaKey sessions v)) ∧
    (∀ f ∈ l, f.page.isSome = true →
      ¬ evLexLt (uaKey sessions f) (uaKey sessions v)) := by
  induction l with
  | nil =>
    intro acc v h
    simp only [List.foldl_nil] at h
    refine ⟨Or.inl h, ?_, ?_⟩
    · intro b hb
      rw [h] at hb
      simp only [Option.some.injEq] at hb
      subst hb
      exact evLex_irrefl _
    · intro f hf
      simp at hf
  | cons a t ih =>
    intro acc v h
    simp only [List.foldl_cons] at h
    obtain ⟨ihmem, ihacc, iht⟩ := ih (uaStep sessions acc a) v h
    by_cases ha : a.page.isSome = true
    · have hstep : ∃ b2, uaStep sessions acc a = some b2 ∧
          (¬ evLexLt (uaKey sessions a) (uaKey sessions b2)) ∧
          (b2 = a ∨ acc = some b2) := by
        unfold uaStep
        rw [if_pos ha]
        cases acc with
        | none => exact ⟨a, rfl, evLex_irrefl _, Or.inl rfl⟩
        | some c =>
          dsimp only
          by_cases hlt : evLexLt (uaKey sessions a) (uaKey sessions c)
          · rw [if_pos hlt]
            exact ⟨a, rfl, evLex_irrefl _, Or.inl rfl⟩
          · rw [if_neg hlt]
            exact ⟨c, rfl, hlt, Or.inr rfl⟩
      obtain ⟨b2, hb2, hab2, hb2src⟩ := hstep
      have hb2v : ¬ evLexLt (uaKey sessions b2) (uaKey sessions v) :=
        ihacc b2 hb2
      refine ⟨?_, ?_, ?_⟩
      · rcases ihmem with h2 | h2
        · rw [hb2] at h2
          simp only [Option.some.injEq] at h2
          subst h2
          rcases hb2src with h3 | h3
          · refine Or.inr ?_
            rw [h3]
            exact ⟨List.mem_cons_self a t, ha⟩
          · exact Or.inl h3
        · exact Or.inr ⟨List.mem_cons_of_mem a h2.1, h2.2⟩
      · intro b hb
        -- acc = some b; relate b to b2
        rcases hb2src with h3 | h3
        · -- b2 = a: the step replaced acc because a's key is smaller
          subst h3
          unfold uaStep at hb2
          rw [if_pos ha, hb] at hb2
          dsimp only at hb2
          by_cases hlt : evLexLt (uaKey sessions b2) (uaKey sessions b)
          · exact evLex_le_lt _ _ _ hb2v hlt
          · rw [if_neg hlt] at hb2
            simp only [Option.some.injEq] at hb2
            subst hb2
            exact hb2v
        · rw [h3] at hb
          simp only [Option.some.injEq] at hb
          subst hb
          exact hb2v
      · intro f hf hoccf
        rcases List.mem_cons.mp hf with h3 | h3
        · subst h3
          exact evLex_le_trans _ _ _ hab2 hb2v
        · exact iht f h3 hoccf
    · have hstep : uaStep sessions acc a = acc := by
        unfold uaStep
        rw [if_neg ha]
      rw [hstep] at ihmem ihacc
      refine ⟨?_, ihacc, ?_⟩
      · rcases ihmem with h2 | h2
        · exact Or.inl h2
        · exact Or.inr ⟨List.mem_cons_of_mem a h2.1, h2.2⟩
      · intro f hf hoccf
        rcases List.mem_cons.mp hf with h3 | h3
        · subst h3
          exact absurd hoccf ha
        · exact iht f h3 hoccf

theorem uaFold_some (sessions : Nat → Option Bool) (l : List ExtFrame) :
    ∀ (b : ExtFrame), ∃ v, l.foldl (uaStep sessions) (some b) = some v := by
  induction l with
  | nil =>
    intro b
    exact ⟨b, rfl⟩
  | cons a t ih =>
    intro b
    simp only [List.foldl_cons]
    unfold uaStep
    by_cases ha : a.page.isSome = true
    · rw [if_pos ha]
      dsimp only
      by_cases hlt : evLexLt (uaKey sessions a) (uaKey sessions b)
      · rw [if_pos hlt]
        exact ih a
      · rw [if_neg hlt]
        exact ih b
    · rw [if_neg ha]
      exact ih b

/-- **C8** (confirmed against the spec-modelled victim selection): with all
frames occupied, the selected victim is the lexicographic minimum over the
frames of (tenant activity with inactive preferred, priority_score,
last_accessed): no frame has a strictly smaller key; in particular a frame of
an inactive tenant is preferred over any frame of an active tenant, within
the same activity class a strictly lower priority score wins, and within the
same activity class and priority the least-recently-used frame wins. -/
theorem user_aware_victim_lex_min_c8 (sessions : Nat → Option Bool)
    (frames : List ExtFrame) (hne : frames ≠ [])
    (hocc : ∀ f ∈ frames, f.page.isSome = true) :
    ∃ v, select_victim_modelled sessions frames = some v ∧ v ∈ frames ∧
      (∀ f ∈ frames, ¬ evLexLt (uaKey sessions f) (uaKey sessions v)) ∧
      ((∃ f ∈ frames, frameActive sessions f = false) →
        frameActive sessions v = false) ∧
      (∀ f ∈ frames, frameActive sessions f = frameActive sessions v →
        v.priority ≤ f.priority) ∧
      (∀ f ∈ frames, frameActive sessions f = frameActive sessions v →
        f.priority = v.priority → v.last_accessed ≤ f.last_accessed) := by
  obtain ⟨v, hv⟩ : ∃ v, select_victim_modelled sessions frames = some v := by
    unfold select_victim_modelled
    cases hfr : frames with
    | nil => exact absurd hfr hne
    | cons a t =>
      simp only [List.foldl_cons]
      have ha : a.page.isSome = true := hocc a (by rw [hfr]; simp)
      rw [show uaStep sessions none a = some a by
        unfold uaStep
        rw [if_pos ha]]
      exact uaFold_some sessions t a
  obtain ⟨hmem, _, hmin⟩ := uaFold_spec sessions frames none v hv
  have hvmem : v ∈ frames := by
    rcases hmem with h2 | h2
    · exact absurd h2 (by simp)
    · exact h2.1
  have hminall : ∀ f ∈ frames, ¬ evLexLt (uaKey sessions f) (uaKey sessions v) :=
    fun f hf => hmin f hf (hocc f hf)
  refine ⟨v, hv, hvmem, hminall, ?_, ?_, ?_⟩
  · rintro ⟨f, hf, hinactive⟩
    have h2 := hminall f hf
    unfold evLexLt uaKey evKey at h2
    rw [hinactive] at h2
    simp only [if_false] at h2
    by_cases hav : frameActive sessions v = false
    · exact hav
    · rw [Bool.not_eq_false] at hav
      rw [hav] at h2
      simp at h2
  · intro f hf hact
    have h2 := hminall f hf
    unfold evLexLt uaKey evKey at h2
    rw [hact] at h2
    dsimp only at h2
    omega
  · intro f hf hact hpri
    have h2 := hminall f hf
    unfold evLexLt uaKey evKey at h2
    rw [hact, hpri] at h2
    dsimp only at h2
    omega

theorem user_aware_victim_lex_min_c8_witness :
    (c8Frames ≠ [] ∧ ∀ f ∈ c8Frames, f.page.isSome = true) ∧
    (∃ v, select_victim_modelled c8Sessions c8Frames = some v ∧ v ∈ c8Frames ∧
      (∀ f ∈ c8Frames, ¬ evLexLt (uaKey c8Sessions f) (uaKey c8Sessions v)) ∧
      ((∃ f ∈ c8Frames, frameActive c8Sessions f = false) →
        frameActive c8Sessions v = false) ∧
      (∀ f ∈ c8Frames, frameActive c8Sessions f = frameActive c8Sessions v →
        v.priority ≤ f.priority) ∧
      (∀ f ∈ c8Frames, frameActive c8Sessions f = frameActive c8Sessions v →
        f.priority = v.priority → v.last_accessed ≤ f.last_accessed)) :=
  ⟨⟨by decide, by decide⟩,
    user_aware_victim_lex_min_c8 c8Sessions c8Frames (by decide) (by decide)⟩

end BdM
